import Mathlib

/-!
A shallow embedding of the constraint-based type checker in
`src/typeChecker/typeChecker.ts` (the Source type inferencer).

Modelling conventions:
* JavaScript's in-place mutation of the constraint array, of the global
  `typeIdCounter`/`typeErrors`, and of a `Variable` object's `constraint`
  field is modelled by threading an explicit state `St` through every
  operation.  Because every type variable created during a run carries a
  globally unique name, the object-identity comparisons (`===`) that the
  source performs on variables are modelled by name equality, and the
  mutable `constraint` field of a variable is modelled by a set
  (`St.addables`) of names of variables whose kind is currently `addable`.
* A thrown JavaScript exception is modelled by `Res.thr`, which carries the
  state at the moment of the throw (the mutated constraint array remains
  visible to the catcher through aliasing in the source).
* All recursion of the unifier goes through an explicit fuel parameter;
  `TErr.fuel` marks fuel exhaustion and is an artefact of the embedding
  (it is always propagated, never handled).
-/

namespace TC

/-- Primitive type names, from `Primitive['name']` in the source. -/
inductive PrimName where
  | pbool
  | pnumber
  | pstring
  | pundefined
deriving DecidableEq, Repr

/-- Type terms: the tagged union `Type` of the source
(`primitive`, `variable`, `function`, `pair`, `list`, `array`).
A variable carries only its name; its kind constraint lives in `St.addables`. -/
inductive Ty where
  | prim (p : PrimName)
  | tvar (name : String)
  | fn (parameterTypes : List Ty) (returnType : Ty)
  | pair (headType tailType : Ty)
  | list (elementType : Ty)
  | arr (elementType : Ty)
deriving Repr

mutual

def tyDecEq : (a b : Ty) → Decidable (a = b)
  | .prim p, .prim q =>
    match decEq p q with
    | .isTrue h => .isTrue (by rw [h])
    | .isFalse h => .isFalse (by intro hh; injection hh; contradiction)
  | .tvar m, .tvar n =>
    match decEq m n with
    | .isTrue h => .isTrue (by rw [h])
    | .isFalse h => .isFalse (by intro hh; injection hh; contradiction)
  | .fn ps r, .fn qs t =>
    match tyListDecEq ps qs, tyDecEq r t with
    | .isTrue h1, .isTrue h2 => .isTrue (by rw [h1, h2])
    | .isFalse h1, _ => .isFalse (by intro hh; injection hh; contradiction)
    | _, .isFalse h2 => .isFalse (by intro hh; injection hh; contradiction)
  | .pair h1 t1, .pair h2 t2 =>
    match tyDecEq h1 h2, tyDecEq t1 t2 with
    | .isTrue e1, .isTrue e2 => .isTrue (by rw [e1, e2])
    | .isFalse e1, _ => .isFalse (by intro hh; injection hh; contradiction)
    | _, .isFalse e2 => .isFalse (by intro hh; injection hh; contradiction)
  | .list a, .list b =>
    match tyDecEq a b with
    | .isTrue h => .isTrue (by rw [h])
    | .isFalse h => .isFalse (by intro hh; injection hh; contradiction)
  | .arr a, .arr b =>
    match tyDecEq a b with
    | .isTrue h => .isTrue (by rw [h])
    | .isFalse h => .isFalse (by intro hh; injection hh; contradiction)
  | .prim _, .tvar _ => .isFalse (fun h => Ty.noConfusion h)
  | .prim _, .fn _ _ => .isFalse (fun h => Ty.noConfusion h)
  | .prim _, .pair _ _ => .isFalse (fun h => Ty.noConfusion h)
  | .prim _, .list _ => .isFalse (fun h => Ty.noConfusion h)
  | .prim _, .arr _ => .isFalse (fun h => Ty.noConfusion h)
  | .tvar _, .prim _ => .isFalse (fun h => Ty.noConfusion h)
  | .tvar _, .fn _ _ => .isFalse (fun h => Ty.noConfusion h)
  | .tvar _, .pair _ _ => .isFalse (fun h => Ty.noConfusion h)
  | .tvar _, .list _ => .isFalse (fun h => Ty.noConfusion h)
  | .tvar _, .arr _ => .isFalse (fun h => Ty.noConfusion h)
  | .fn _ _, .prim _ => .isFalse (fun h => Ty.noConfusion h)
  | .fn _ _, .tvar _ => .isFalse (fun h => Ty.noConfusion h)
  | .fn _ _, .pair _ _ => .isFalse (fun h => Ty.noConfusion h)
  | .fn _ _, .list _ => .isFalse (fun h => Ty.noConfusion h)
  | .fn _ _, .arr _ => .isFalse (fun h => Ty.noConfusion h)
  | .pair _ _, .prim _ => .isFalse (fun h => Ty.noConfusion h)
  | .pair _ _, .tvar _ => .isFalse (fun h => Ty.noConfusion h)
  | .pair _ _, .fn _ _ => .isFalse (fun h => Ty.noConfusion h)
  | .pair _ _, .list _ => .isFalse (fun h => Ty.noConfusion h)
  | .pair _ _, .arr _ => .isFalse (fun h => Ty.noConfusion h)
  | .list _, .prim _ => .isFalse (fun h => Ty.noConfusion h)
  | .list _, .tvar _ => .isFalse (fun h => Ty.noConfusion h)
  | .list _, .fn _ _ => .isFalse (fun h => Ty.noConfusion h)
  | .list _, .pair _ _ => .isFalse (fun h => Ty.noConfusion h)
  | .list _, .arr _ => .isFalse (fun h => Ty.noConfusion h)
  | .arr _, .prim _ => .isFalse (fun h => Ty.noConfusion h)
  | .arr _, .tvar _ => .isFalse (fun h => Ty.noConfusion h)
  | .arr _, .fn _ _ => .isFalse (fun h => Ty.noConfusion h)
  | .arr _, .pair _ _ => .isFalse (fun h => Ty.noConfusion h)
  | .arr _, .list _ => .isFalse (fun h => Ty.noConfusion h)

def tyListDecEq : (a b : List Ty) → Decidable (a = b)
  | [], [] => .isTrue rfl
  | [], _ :: _ => .isFalse (fun h => List.noConfusion h)
  | _ :: _, [] => .isFalse (fun h => List.noConfusion h)
  | a :: as, b :: bs =>
    match tyDecEq a b, tyListDecEq as bs with
    | .isTrue h1, .isTrue h2 => .isTrue (by rw [h1, h2])
    | .isFalse h1, _ => .isFalse (by intro hh; injection hh; contradiction)
    | _, .isFalse h2 => .isFalse (by intro hh; injection hh; contradiction)

end

instance : DecidableEq Ty := tyDecEq

def tBool : Ty := .prim .pbool
def tNumber : Ty := .prim .pnumber
def tString : Ty := .prim .pstring
def tUndef : Ty := .prim .pundefined

/-- `getListType` from the source: the element type when the type is a list. -/
def getListType : Ty → Option Ty
  | .list e => some e
  | _ => none

mutual

/-- `contains` from the source: does `type` mention the variable `name`. -/
def contains : Ty → String → Bool
  | .prim _, _ => false
  | .pair h t, n => contains h n || contains t n
  | .arr e, n => contains e n
  | .list e, n => contains e n
  | .tvar m, n => m == n
  | .fn ps r, n => containsMany ps n || contains r n

def containsMany : List Ty → String → Bool
  | [], _ => false
  | t :: ts, n => contains t n || containsMany ts n

end

/-- `union` from the source: free-variable union keeping first-seen order. -/
def unionVars (a b : List String) : List String :=
  b.foldl (fun acc n => if acc.contains n then acc else acc ++ [n]) a

mutual

/-- `freeTypeVarsInType` from the source (names only; kinds are in `St.addables`). -/
def freeTypeVarsInType : Ty → List String
  | .prim _ => []
  | .list e => freeTypeVarsInType e
  | .arr e => freeTypeVarsInType e
  | .pair h t => unionVars (freeTypeVarsInType h) (freeTypeVarsInType t)
  | .tvar n => [n]
  | .fn ps r => unionVars (freeTypeVarsInMany [] ps) (freeTypeVarsInType r)

def freeTypeVarsInMany : List String → List Ty → List String
  | acc, [] => acc
  | acc, t :: ts => freeTypeVarsInMany (unionVars acc (freeTypeVarsInType t)) ts

end

mutual

/-- `fresh` from the source: replace variables by their image under the
substitution built by `extractFreeVariablesAndGenFresh` (a renaming). -/
def freshTy (subst : List (String × String)) : Ty → Ty
  | .prim p => .prim p
  | .list e => .list (freshTy subst e)
  | .arr e => .arr (freshTy subst e)
  | .pair h t => .pair (freshTy subst h) (freshTy subst t)
  | .tvar n => .tvar (((subst.find? (fun q => q.fst == n)).map (fun q => q.snd)).getD n)
  | .fn ps r => .fn (freshTyMany subst ps) (freshTy subst r)

def freshTyMany (subst : List (String × String)) : List Ty → List Ty
  | [] => []
  | t :: ts => freshTy subst t :: freshTyMany subst ts

end

/-- The `typability` annotation of a node (`NotYetTyped` is the initial value;
modelled from the spec, since `types.ts` is outside the given sources). -/
inductive Typability where
  | notYetTyped
  | typed
  | untypable
deriving DecidableEq, Repr

/-- Internal errors thrown by the unifier and substitution walker.
The class hierarchy lives in `internalTypeErrors.ts`, outside the given
sources; modelled from the spec: `UnifyError`, `InternalDifferentNumberArgumentsError`
(= ArityError), `InternalCyclicReferenceError` (= CyclicError) and the generic
`InternalTypeError` are all instances of `InternalTypeError`; `jsError`
stands for a plain JavaScript runtime error (`TypeError`/`Error`), and `fuel`
is the fuel-exhaustion artefact of this embedding. -/
inductive TErr where
  | unify (lhs rhs : Ty)
  | arity (numExpectedArgs numReceived : Nat)
  | cyclic (name : String)
  | internal (objName : String) (got : Ty)
  | jsError
  | fuel
deriving DecidableEq, Repr

/-- `isInternalTypeError` from the source (instance test against the
`InternalTypeError` base class; hierarchy modelled from the spec). -/
def isInternalTypeError : TErr → Bool
  | .unify _ _ => true
  | .arity _ _ => true
  | .cyclic _ => true
  | .internal _ _ => true
  | .jsError => false
  | .fuel => false

def isCyclicErr : TErr → Bool
  | .cyclic _ => true
  | _ => false

/-- Structured diagnostics (`SourceError`s from `errors/typeErrors.ts`),
keeping the type/term payloads the claims are about; AST-node payloads are
dropped. -/
inductive SrcErr where
  | invalidArgumentTypes (expectedTypes receivedTypes : List Ty)
  | differentNumberArguments (numExpectedArgs numReceived : Nat)
  | invalidTestCondition (receivedType : Ty)
  | consequentAlternateMismatch (consequentType alternateType : Ty)
  | cyclicReference
  | undefinedIdentifier (name : String)
  | invalidArrayIndexType (receivedType : Ty)
  | typeError (e : TErr)
deriving DecidableEq, Repr

/-- A store entry `[Variable, Type]`: the variable's name and the bound term. -/
abbrev Constraint := String × Ty

/-- The threaded mutable state: the global `typeIdCounter`, the set of
variable names whose kind is currently `addable` (the mutable `constraint`
field of `Variable` objects), the constraint store array, and the global
`typeErrors` list. -/
structure St where
  counter : Nat
  addables : List String
  store : List Constraint
  errs : List SrcErr
deriving DecidableEq, Repr

def pushErr (s : St) (e : SrcErr) : St := { s with errs := s.errs ++ [e] }

/-- Result of a statement of the source: a value or a thrown exception, in
both cases with the state as mutated so far. -/
inductive Res (α : Type) where
  | ok (a : α) (s : St)
  | thr (e : TErr) (s : St)
deriving DecidableEq, Repr

/-- The state a `Res` carries (mutations survive a throw, by array aliasing). -/
def Res.state : Res α → St
  | .ok _ s => s
  | .thr _ s => s

/-- `cannotBeResolvedIfAddable` from the source. -/
def cannotBeResolvedIfAddable (s : St) (lhsName : String) (rhs : Ty) : Bool :=
  s.addables.contains lhsName &&
    (match rhs with
     | .tvar _ => false
     | .prim .pnumber => false
     | .prim .pstring => false
     | _ => true)

/-- First store entry whose left side is the given variable name
(the in-order scans at lines 382 and 447 of the source). -/
def findConstraint (store : List Constraint) (n : String) : Option Constraint :=
  store.find? (fun c => c.fst == n)

/-- The seven mutually recursive operations of the unifier and substitution
walker, indexed by the remaining fuel: `add` is `addToConstraintList`,
`addVar` its `LHS.kind === 'variable'` branch, `occurs` is
`occursOnLeftInConstraintList`, `params2` the parameter-list zip of the
function/function rule, `app` is `applyConstraints`, `struct` is
`__applyConstraints` and `each` the parameter map inside it.  The knot is
tied by `unifierFns` below; `addToConstraintList` etc. are the named
entry points. -/
structure UnifierFns where
  add : St → Ty → Ty → Res Unit
  addVar : St → String → Ty → Res Unit
  occurs : St → String → Ty → Res Unit
  params2 : St → List Ty → List Ty → Res Unit
  app : St → Ty → Res Ty
  struct : St → Ty → Res Ty
  each : St → List Ty → Res (List Ty)

/-- One step of `addToConstraintList` (lines 473-532 of the source): the
else-if chain, rule for rule. -/
def addStep (u : UnifierFns) (s : St) (lhs rhs : Ty) : Res Unit :=
  match lhs, rhs with
  | .prim a, .prim b =>
    if a = b then .ok () s else .thr (.unify lhs rhs) s
  | .arr a, .arr b => u.add s a b
  | .list a, .list b => u.add s a b
  | .pair _ _, .list _ =>
    -- swap so that we hit the rule below
    u.add s rhs lhs
  | .list e, .pair _ _ =>
    u.add s rhs (.pair e lhs)
  | .pair h1 t1, .pair h2 t2 =>
    match u.add s h1 h2 with
    | .ok _ s1 => u.add s1 t1 t2
    | r => r
  | .tvar n, _ => u.addVar s n rhs
  | _, .tvar _ =>
    -- swap around so the type var is on the left hand side
    u.add s rhs lhs
  | .fn ps1 r1, .fn ps2 r2 =>
    if ps1.length ≠ ps2.length then
      .thr (.arity ps2.length ps1.length) s
    else
      match u.params2 s ps1 ps2 with
      | .ok _ s1 => u.add s1 r1 r2
      | r => r
  | _, _ => .thr (.unify lhs rhs) s

/-- One step of the `LHS.kind === 'variable'` branch of
`addToConstraintList` (lines 491-509 of the source). -/
def addVarStep (u : UnifierFns) (s : St) (n : String) (rhs : Ty) : Res Unit :=
  if rhs = .tvar n then .ok () s
  else if contains rhs n then
    match rhs with
    | .pair h t =>
      if t = .tvar n ∨ t = .list (.tvar n) then
        -- T1 = Pair(T2, T1) ==> T1 = List(T2)
        u.add s (.tvar n) (.list h)
      else .thr (.cyclic n) s
    | .list e =>
      if e = .tvar n then .ok () { s with store := s.store ++ [(n, rhs)] }
      else .thr (.cyclic n) s
    | _ => .thr (.cyclic n) s
  else if cannotBeResolvedIfAddable s n rhs then
    .thr (.unify (.tvar n) rhs) s
  else
    match u.app s rhs with
    | .ok r s1 => u.occurs s1 n r
    | .thr e s1 => .thr e s1

/-- One step of `occursOnLeftInConstraintList` (lines 442-463 of the source). -/
def occursStep (u : UnifierFns) (s : St) (n : String) (rhs : Ty) : Res Unit :=
  match findConstraint s.store n with
  | some c => u.add s rhs c.snd
  | none =>
    let s1 :=
      match rhs with
      | .tvar m =>
        if s.addables.contains n ∧ ¬ s.addables.contains m then
          { s with addables := m :: s.addables }
        else s
      | _ => s
    if rhs = .tvar n then .ok () s1
    else .ok () { s1 with store := s1.store ++ [(n, rhs)] }

/-- One step of the parameter-list zip of the function/function rule. -/
def paramsStep (u : UnifierFns) (s : St) : List Ty → List Ty → Res Unit
  | [], _ => .ok () s
  | _, [] => .ok () s
  | a :: as, b :: bs =>
    match u.add s a b with
    | .ok _ s1 => u.params2 s1 as bs
    | r => r

/-- One step of `applyConstraints` (lines 328-350 of the source): structural
rewrite followed by the two list-folding normalisations. -/
def appStep (u : UnifierFns) (s : St) (t : Ty) : Res Ty :=
  match u.struct s t with
  | .thr e s1 => .thr e s1
  | .ok result s1 =>
    match result with
    | .list e => .ok (.pair e (.list e)) s1
    | .pair h1 (.pair h2 (.list h3)) =>
      match u.add s1 h2 h3 with
      | .thr e s2 => .thr e s2
      | .ok _ s2 =>
        match u.add s2 h2 h1 with
        | .thr e s3 => .thr e s3
        | .ok _ s3 => u.struct s3 (.pair h2 (.list h3))
    | _ => .ok result s1

/-- One step of `__applyConstraints` (lines 355-415 of the source): the
structural walk down the constraint store. -/
def structStep (u : UnifierFns) (s : St) (t : Ty) : Res Ty :=
  match t with
  | .prim _ => .ok t s
  | .pair h tl =>
    match u.struct s h with
    | .thr e s1 => .thr e s1
    | .ok h1 s1 =>
      match u.struct s1 tl with
      | .thr e s2 => .thr e s2
      | .ok t1 s2 => .ok (.pair h1 t1) s2
  | .list e =>
    match u.struct s e with
    | .thr er s1 => .thr er s1
    | .ok e1 s1 => .ok (.list e1) s1
  | .arr e =>
    match u.struct s e with
    | .thr er s1 => .thr er s1
    | .ok e1 s1 => .ok (.arr e1) s1
  | .tvar n =>
    match findConstraint s.store n with
    | none => .ok t s
    | some c =>
      if contains c.snd n then
        match c.snd with
        | .pair h tl =>
          if tl = .tvar n then .ok (.list h) s else .thr (.cyclic n) s
        | .list e =>
          if e = .tvar n then .ok (.list (.tvar n)) s else .thr (.cyclic n) s
        | _ => .thr (.cyclic n) s
      else u.app s c.snd
  | .fn ps r =>
    match u.each s ps with
    | .thr e s1 => .thr e s1
    | .ok ps1 s1 =>
      match u.app s1 r with
      | .thr e s2 => .thr e s2
      | .ok r1 s2 => .ok (.fn ps1 r1) s2

/-- One step of
`type.parameterTypes.map(fromType => applyConstraints(fromType, constraints))`. -/
def eachStep (u : UnifierFns) (s : St) : List Ty → Res (List Ty)
  | [] => .ok [] s
  | t :: ts =>
    match u.app s t with
    | .thr e s1 => .thr e s1
    | .ok t1 s1 =>
      match u.each s1 ts with
      | .thr e s2 => .thr e s2
      | .ok ts1 s2 => .ok (t1 :: ts1) s2

/-- Out-of-fuel bottom of the unifier tower (an artefact of the embedding). -/
def unifierBot : UnifierFns where
  add := fun s _ _ => .thr .fuel s
  addVar := fun s _ _ => .thr .fuel s
  occurs := fun s _ _ => .thr .fuel s
  params2 := fun s _ _ => .thr .fuel s
  app := fun s _ => .thr .fuel s
  struct := fun s _ => .thr .fuel s
  each := fun s _ => .thr .fuel s

/-- The fuel-indexed tower: level `fuel + 1` performs one step of each
operation, making its recursive calls at level `fuel`. -/
def unifierFns : Nat → UnifierFns
  | 0 => unifierBot
  | fuel + 1 =>
    { add := addStep (unifierFns fuel),
      addVar := addVarStep (unifierFns fuel),
      occurs := occursStep (unifierFns fuel),
      params2 := paramsStep (unifierFns fuel),
      app := appStep (unifierFns fuel),
      struct := structStep (unifierFns fuel),
      each := eachStep (unifierFns fuel) }

/-- `addToConstraintList` from the source (lines 473-532): attempt to extend
the store with the equation `lhs = rhs`, returning the mutated state or
throwing. -/
def addToConstraintList (fuel : Nat) (s : St) (lhs rhs : Ty) : Res Unit :=
  (unifierFns fuel).add s lhs rhs

/-- The `LHS.kind === 'variable'` branch of `addToConstraintList`. -/
def addVarConstraint (fuel : Nat) (s : St) (n : String) (rhs : Ty) : Res Unit :=
  (unifierFns fuel).addVar s n rhs

/-- `occursOnLeftInConstraintList` from the source (lines 442-463). -/
def occursOnLeftInConstraintList (fuel : Nat) (s : St) (n : String) (rhs : Ty) :
    Res Unit :=
  (unifierFns fuel).occurs s n rhs

/-- The zip of parameter lists in the `function`/`function` rule. -/
def addParamConstraints (fuel : Nat) (s : St) (ps qs : List Ty) : Res Unit :=
  (unifierFns fuel).params2 s ps qs

/-- `applyConstraints` from the source (lines 328-350). -/
def applyConstraints (fuel : Nat) (s : St) (t : Ty) : Res Ty :=
  (unifierFns fuel).app s t

/-- `__applyConstraints` from the source (lines 355-415). -/
def applyConstraintsStruct (fuel : Nat) (s : St) (t : Ty) : Res Ty :=
  (unifierFns fuel).struct s t

/-- The parameter map inside `__applyConstraints`. -/
def applyConstraintsEach (fuel : Nat) (s : St) (ts : List Ty) : Res (List Ty) :=
  (unifierFns fuel).each s ts

/-! ## The AST

The subset of estree node kinds handled by the checker that the claims
exercise.  A `VariableDeclaration` keeps its first declarator (name and
initialiser) separate from the remaining declarators, which estree also
carries (`declarations[1..]`); conditionals and `return` always carry their
operands, as the Source language guarantees. -/

inductive LitVal where
  | lnum (n : Int)
  | lbool (b : Bool)
  | lstr (v : String)
  | lnull
deriving DecidableEq, Repr

/-- `AllowedDeclarations` (Source has no `var`). -/
inductive DeclKind where
  | dconst
  | dlet
deriving DecidableEq, Repr

inductive Node where
  | program (body : List Node)
  | blockStatement (body : List Node)
  | expressionStatement (expression : Node)
  | conditionalExpression (test consequent alternate : Node)
  | ifStatement (test consequent alternate : Node)
  | binaryExpression (operator : String) (left right : Node)
  | callExpression (callee : Node) (args : List Node)
  | returnStatement (argument : Node)
  | variableDeclaration (kind : DeclKind) (declName : String) (init : Node)
      (restDeclNames : List String) (restDeclInits : List Node)
  | arrowFunctionExpression (params : List String) (body : Node)
  | functionDeclaration (id : String) (params : List String) (body : Node)
  | memberExpression (object property : Node)
  | literal (value : LitVal)
  | identifier (name : String)
deriving Repr

/-- The two type annotations `traverse` maintains on a node. -/
structure Ann where
  inferredType : Ty
  typability : Typability
deriving DecidableEq, Repr

/-- A decorated node: the same tree with an `Ann` on every node that
`traverse` visits.  `functionDeclaration` additionally carries its
`functionInferredType`; parameters are identifier nodes, so they carry
their own `Ann`.  The tail declarators of a `variableDeclaration` are never
visited by any pass, so they stay raw `Node`s. -/
inductive DNode where
  | program (a : Ann) (body : List DNode)
  | blockStatement (a : Ann) (body : List DNode)
  | expressionStatement (a : Ann) (expression : DNode)
  | conditionalExpression (a : Ann) (test consequent alternate : DNode)
  | ifStatement (a : Ann) (test consequent alternate : DNode)
  | binaryExpression (a : Ann) (operator : String) (left right : DNode)
  | callExpression (a : Ann) (callee : DNode) (args : List DNode)
  | returnStatement (a : Ann) (argument : DNode)
  | variableDeclaration (a : Ann) (kind : DeclKind) (declName : String) (init : DNode)
      (restDeclNames : List String) (restDeclInits : List Node)
  | arrowFunctionExpression (a : Ann) (params : List (String × Ann)) (body : DNode)
  | functionDeclaration (a : Ann) (functionInferredType : Ty) (id : String)
      (params : List (String × Ann)) (body : DNode)
  | memberExpression (a : Ann) (object property : DNode)
  | literal (a : Ann) (value : LitVal)
  | identifier (a : Ann) (name : String)
deriving Repr

/-- The annotation of a decorated node (`node.inferredType` / `node.typability`). -/
def dAnn : DNode → Ann
  | .program a _ => a
  | .blockStatement a _ => a
  | .expressionStatement a _ => a
  | .conditionalExpression a _ _ _ => a
  | .ifStatement a _ _ _ => a
  | .binaryExpression a _ _ _ => a
  | .callExpression a _ _ => a
  | .returnStatement a _ => a
  | .variableDeclaration a _ _ _ _ _ => a
  | .arrowFunctionExpression a _ _ => a
  | .functionDeclaration a _ _ _ _ => a
  | .memberExpression a _ _ => a
  | .literal a _ => a
  | .identifier a _ => a

def tname (c : Nat) : String := "T" ++ toString c

def mkAnn (c : Nat) : Ann := ⟨.tvar (tname c), .notYetTyped⟩

mutual

/-- Pass A of `traverse` (no constraints): decorate every visited node with a
fresh type variable from the monotone counter, in visiting order.  The
initial typability `NotYetTyped` is modelled from the spec (`types.ts` is
outside the given sources).  For a `VariableDeclaration`, only
`declarations[0].init` is visited. -/
def decorate : Node → Nat → DNode × Nat
  | .program body, c =>
    match decorateMany body (c + 1) with
    | (body2, c2) => (.program (mkAnn c) body2, c2)
  | .blockStatement body, c =>
    match decorateMany body (c + 1) with
    | (body2, c2) => (.blockStatement (mkAnn c) body2, c2)
  | .expressionStatement e, c =>
    match decorate e (c + 1) with
    | (e2, c2) => (.expressionStatement (mkAnn c) e2, c2)
  | .conditionalExpression t cq al, c =>
    match decorate t (c + 1) with
    | (t2, c2) =>
      match decorate cq c2 with
      | (cq2, c3) =>
        match decorate al c3 with
        | (al2, c4) => (.conditionalExpression (mkAnn c) t2 cq2 al2, c4)
  | .ifStatement t cq al, c =>
    match decorate t (c + 1) with
    | (t2, c2) =>
      match decorate cq c2 with
      | (cq2, c3) =>
        match decorate al c3 with
        | (al2, c4) => (.ifStatement (mkAnn c) t2 cq2 al2, c4)
  | .binaryExpression op l r, c =>
    match decorate l (c + 1) with
    | (l2, c2) =>
      match decorate r c2 with
      | (r2, c3) => (.binaryExpression (mkAnn c) op l2 r2, c3)
  | .callExpression callee args, c =>
    match decorate callee (c + 1) with
    | (callee2, c2) =>
      match decorateMany args c2 with
      | (args2, c3) => (.callExpression (mkAnn c) callee2 args2, c3)
  | .returnStatement arg, c =>
    match decorate arg (c + 1) with
    | (arg2, c2) => (.returnStatement (mkAnn c) arg2, c2)
  | .variableDeclaration k nm init rn ri, c =>
    match decorate init (c + 1) with
    | (init2, c2) => (.variableDeclaration (mkAnn c) k nm init2 rn ri, c2)
  | .arrowFunctionExpression ps b, c =>
    match decorateParams ps (c + 1) with
    | (ps2, c2) =>
      match decorate b c2 with
      | (b2, c3) => (.arrowFunctionExpression (mkAnn c) ps2 b2, c3)
  | .functionDeclaration id ps b, c =>
    -- node variable at `c`, functionInferredType at `c+1`, then the extra
    -- `typeIdCounter++` of line 154
    match decorateParams ps (c + 2) with
    | (ps2, c2) =>
      match decorate b c2 with
      | (b2, c3) => (.functionDeclaration (mkAnn c) (.tvar (tname (c + 1))) id ps2 b2, c3)
  | .memberExpression o p, c =>
    match decorate o (c + 1) with
    | (o2, c2) =>
      match decorate p c2 with
      | (p2, c3) => (.memberExpression (mkAnn c) o2 p2, c3)
  | .literal v, c => (.literal (mkAnn c) v, c + 1)
  | .identifier n, c => (.identifier (mkAnn c) n, c + 1)

def decorateMany : List Node → Nat → List DNode × Nat
  | [], c => ([], c)
  | n :: ns, c =>
    match decorate n c with
    | (n2, c2) =>
      match decorateMany ns c2 with
      | (ns2, c3) => (n2 :: ns2, c3)

def decorateParams : List String → Nat → List (String × Ann) × Nat
  | [], c => ([], c)
  | p :: ps, c =>
    match decorateParams ps (c + 1) with
    | (ps2, c2) => ((p, mkAnn c) :: ps2, c2)

end

/-! ## Type environments and the initial environment -/

/-- `Type | ForAll`: what the type map of an environment stores. -/
inductive EnvTy where
  | mono (t : Ty)
  | poly (polyType : Ty)
deriving DecidableEq, Repr

/-- `Env` from the source: maps of identifier names to types and declaration
kinds; `Map.set` overwrite is modelled by consing, `Map.get` by first match. -/
structure Env where
  typeMap : List (String × EnvTy)
  declKindMap : List (String × DeclKind)
deriving Repr

def envGetT (e : Env) (n : String) : Option EnvTy :=
  (e.typeMap.find? (fun q => q.fst == n)).map (fun q => q.snd)

def envSetT (e : Env) (n : String) (t : EnvTy) : Env :=
  { e with typeMap := (n, t) :: e.typeMap }

def envSetK (e : Env) (n : String) (k : DeclKind) : Env :=
  { e with declKindMap := (n, k) :: e.declKindMap }

/-- `extractFreeVariablesAndGenFresh` from the source: rename every free
variable of the wrapped monotype to a fresh counter-named variable of the
same kind (`freshTypeVar` copies the kind of the variable it refreshes). -/
def genFreshSubst : List String → List (String × String) → St → List (String × String) × St
  | [], sub, s => (sub, s)
  | n :: ns, sub, s =>
    genFreshSubst ns (sub ++ [(n, tname s.counter)])
      (if s.addables.contains n then
        { s with counter := s.counter + 1, addables := tname s.counter :: s.addables }
       else { s with counter := s.counter + 1 })

def extractFreeVariablesAndGenFresh (s : St) (monoType : Ty) : Ty × St :=
  match genFreshSubst (freeTypeVarsInType monoType) [] s with
  | (sub, s2) => (freshTy sub monoType, s2)

/-- `tVar(name)` of the source prefixes the argument with `T`
(so `tVar('T')` is the variable named `TT`). -/
def tVarS (n : String) : Ty := .tvar ("T" ++ n)

/-- `tAddable('A')`: the variable named `A`, registered addable in the
initial state. -/
def tA : Ty := .tvar "A"

def fn1 (a r : Ty) : Ty := .fn [a] r
def fn2 (a b r : Ty) : Ty := .fn [a, b] r

def tHead : Ty := tVarS "headType"
def tTail : Ty := tVarS "tailType"

set_option maxHeartbeats 2000000 in
/-- `initialTypeMappings` from the source (lines 1163-1271), in table order. -/
def initialTypeMappings : List (String × EnvTy) :=
  [ ("Infinity", .mono tNumber),
    ("NaN", .mono tNumber),
    ("undefined", .mono tUndef),
    ("math_LN2", .mono tNumber),
    ("math_LN10", .mono tNumber),
    ("math_LOG2E", .mono tNumber),
    ("math_LOG10E", .mono tNumber),
    ("math_PI", .mono tNumber),
    ("math_SQRT1_2", .mono tNumber),
    ("math_SQRT2", .mono tNumber),
    ("is_boolean", .poly (fn1 (tVarS "T") tBool)),
    ("is_number", .poly (fn1 (tVarS "T") tBool)),
    ("is_string", .poly (fn1 (tVarS "T") tBool)),
    ("is_undefined", .poly (fn1 (tVarS "T") tBool)),
    ("math_abs", .mono (fn1 tNumber tNumber)),
    ("math_acos", .mono (fn1 tNumber tNumber)),
    ("math_acosh", .mono (fn1 tNumber tNumber)),
    ("math_asin", .mono (fn1 tNumber tNumber)),
    ("math_asinh", .mono (fn1 tNumber tNumber)),
    ("math_atan", .mono (fn1 tNumber tNumber)),
    ("math_atan2", .mono (fn2 tNumber tNumber tNumber)),
    ("math_atanh", .mono (fn1 tNumber tNumber)),
    ("math_cbrt", .mono (fn1 tNumber tNumber)),
    ("math_ceil", .mono (fn1 tNumber tNumber)),
    ("math_clz32", .mono (fn1 tNumber tNumber)),
    ("math_cos", .mono (fn1 tNumber tNumber)),
    ("math_cosh", .mono (fn1 tNumber tNumber)),
    ("math_exp", .mono (fn1 tNumber tNumber)),
    ("math_expm1", .mono (fn1 tNumber tNumber)),
    ("math_floor", .mono (fn1 tNumber tNumber)),
    ("math_fround", .mono (fn1 tNumber tNumber)),
    ("math_hypot", .poly (tVarS "T")),
    ("math_imul", .mono (fn2 tNumber tNumber tNumber)),
    ("math_log", .mono (fn1 tNumber tNumber)),
    ("math_log1p", .mono (fn1 tNumber tNumber)),
    ("math_log2", .mono (fn1 tNumber tNumber)),
    ("math_log10", .mono (fn1 tNumber tNumber)),
    ("math_max", .poly (tVarS "T")),
    ("math_min", .poly (tVarS "T")),
    ("math_pow", .mono (fn2 tNumber tNumber tNumber)),
    ("math_random", .mono (.fn [] tNumber)),
    ("math_round", .mono (fn1 tNumber tNumber)),
    ("math_sign", .mono (fn1 tNumber tNumber)),
    ("math_sin", .mono (fn1 tNumber tNumber)),
    ("math_sinh", .mono (fn1 tNumber tNumber)),
    ("math_sqrt", .mono (fn1 tNumber tNumber)),
    ("math_tan", .mono (fn1 tNumber tNumber)),
    ("math_tanh", .mono (fn1 tNumber tNumber)),
    ("math_trunc", .mono (fn1 tNumber tNumber)),
    ("parse_int", .mono (fn2 tString tNumber tNumber)),
    ("prompt", .mono (fn1 tString tString)),
    ("runtime", .mono (.fn [] tNumber)),
    ("stringify", .poly (fn1 (tVarS "T") tString)),
    ("display", .poly (tVarS "T")),
    ("error", .poly (tVarS "T")),
    ("pair", .poly (fn2 tHead tTail (.pair tHead tTail))),
    ("head", .poly (fn1 (.pair tHead tTail) tHead)),
    ("tail", .poly (fn1 (.pair tHead tTail) tTail)),
    ("is_pair", .poly (fn1 (tVarS "T") tBool)),
    ("is_null", .poly (fn1 (.pair tHead tTail) tBool)),
    ("set_head", .poly (fn2 (.pair tHead tTail) tHead tUndef)),
    ("set_tail", .poly (fn2 (.pair tHead tTail) tTail tUndef)),
    ("is_array", .poly (fn1 (tVarS "T") tBool)),
    ("array_length", .poly (fn1 (.arr (tVarS "T")) tNumber)),
    ("list", .poly (tVarS "T1")),
    ("-_1", .mono (fn1 tNumber tNumber)),
    ("!", .mono (fn1 tBool tBool)),
    ("&&", .poly (fn2 tBool (tVarS "T") (tVarS "T"))),
    ("||", .poly (fn2 tBool (tVarS "T") (tVarS "T"))),
    ("===", .poly (fn2 tA tA tBool)),
    ("!==", .poly (fn2 tA tA tBool)),
    ("<", .poly (fn2 tA tA tBool)),
    ("<=", .poly (fn2 tA tA tBool)),
    (">", .poly (fn2 tA tA tBool)),
    (">=", .poly (fn2 tA tA tBool)),
    ("+", .poly (fn2 tA tA tA)),
    ("%", .mono (fn2 tNumber tNumber tNumber)),
    ("-", .mono (fn2 tNumber tNumber tNumber)),
    ("*", .mono (fn2 tNumber tNumber tNumber)),
    ("/", .mono (fn2 tNumber tNumber tNumber)) ]

def initialEnv : Env :=
  { typeMap := initialTypeMappings,
    declKindMap := initialTypeMappings.map (fun q => (q.fst, DeclKind.dconst)) }

/-- The only variable of the initial table whose kind is `addable` is `A`. -/
def initialAddables : List String := ["A"]

/-! ## Block-value selection (`statementHasReturn`,
`stmtHasValueReturningStmt`, `returnBlockValueNodeIndexFor`) -/

mutual

def statementHasReturn : DNode → Bool
  | .ifStatement _ _ cq al => statementHasReturn cq || statementHasReturn al
  | .blockStatement _ body => statementsHaveReturn body
  | .returnStatement _ _ => true
  | _ => false

def statementsHaveReturn : List DNode → Bool
  | [] => false
  | n :: ns => statementHasReturn n || statementsHaveReturn ns

end

mutual

def stmtHasValueReturningStmt : DNode → Bool
  | .expressionStatement _ _ => true
  | .ifStatement _ _ cq al => stmtHasValueReturningStmt cq || stmtHasValueReturningStmt al
  | .blockStatement _ body => stmtsHaveValueReturningStmt body
  | _ => false

def stmtsHaveValueReturningStmt : List DNode → Bool
  | [] => false
  | n :: ns => stmtHasValueReturningStmt n || stmtsHaveValueReturningStmt ns

end

/-- Index of the last element satisfying `p`, or `none`. -/
def findLastIdx (p : DNode → Bool) (l : List DNode) : Option Nat :=
  let r := l.foldl
    (fun (acc : Option Nat × Nat) nd =>
      (if p nd then some acc.snd else acc.fst, acc.snd + 1))
    (none, 0)
  r.fst

/-- `Array.findIndex` with the index visible to the predicate; `-1` if none. -/
def findIdxAux (p : Nat → DNode → Bool) : List DNode → Nat → Int
  | [], _ => -1
  | nd :: ns, i => if p i nd then (i : Int) else findIdxAux p ns (i + 1)

/-- `returnBlockValueNodeIndexFor` from the source (lines 585-605). -/
def returnBlockValueNodeIndexFor (body : List DNode) (isTopLevelAndLastValStmt : Bool) :
    Int :=
  let lastStatementIndex : Int := (body.length : Int) - 1
  if isTopLevelAndLastValStmt then
    match findLastIdx stmtHasValueReturningStmt body with
    | some i => (i : Int)
    | none => lastStatementIndex
  else
    findIdxAux
      (fun i nd => ((i : Int) == lastStatementIndex) || statementHasReturn nd) body 0

def isDeclNode : DNode → Bool
  | .functionDeclaration _ _ _ _ _ => true
  | .variableDeclaration _ _ _ _ _ _ => true
  | _ => false

/-- The declaration pre-binding of a block (lines 783-800 of the source):
bind a function declaration's name to its raw `functionInferredType`, a
variable declaration's name to its initialiser's raw inferred type. -/
def preBindDecl (e : Env) (d : DNode) : Env :=
  match d with
  | .functionDeclaration _ fv id _ _ => envSetK (envSetT e id (.mono fv)) id .dconst
  | .variableDeclaration _ k nm init _ _ =>
    envSetK (envSetT e nm (.mono (dAnn init).inferredType)) nm k
  | _ => e

/-! ## Pass B: `infer` / `_infer` (lines 607-1090 of the source)

`infer` wraps `_infer` and silently absorbs an
`InternalCyclicReferenceError`, keeping the store as mutated so far.  Every
function here takes the same explicit fuel; `TErr.fuel` is always
propagated (it models no source behaviour). -/

/-- The mutually recursive functions of Pass B, indexed by fuel:
`infer` is the wrapper that absorbs `InternalCyclicReferenceError`,
`inferB` is `_infer`, `cond` the shared `IfStatement`/`ConditionalExpression`
rule, `blockLike` the `Program`/`BlockStatement` rule, `range` the
`for`-loops over a block body, `gen` the generalisation pass over the
declarations, and `args` the argument loop of `CallExpression`.  Tied by
`inferFns` below; `infer`, `_infer`, … are the named entry points. -/
structure InferFns where
  infer : DNode → Env → St → Bool → Res Unit
  inferB : DNode → Env → St → Bool → Res Unit
  cond : Ty → DNode → DNode → DNode → Env → St → Bool → Res Unit
  blockLike : Ty → List DNode → Env → St → Bool → Res Unit
  range : List DNode → Nat → Nat → Int → Env → St → Bool → Res Unit
  gen : List DNode → Env → St → Res Env
  args : List DNode → Env → St → Res (List Ty)

def inferStep (u : InferFns) (node : DNode) (env : Env) (s : St) (isTop : Bool) : Res Unit :=
    match u.inferB node env s isTop with
    | .thr (.cyclic _) s1 => .ok () s1
    | r => r

def inferBStep (fuel : Nat) (u : InferFns) (node : DNode) (env : Env) (s : St) (isTop : Bool) : Res Unit :=
    let storedType := (dAnn node).inferredType
    match node with
    | .binaryExpression _ op l r =>
      match envGetT env op with
      | none => .thr .jsError s
      | some envType =>
        match (match envType with
               | .poly t => extractFreeVariablesAndGenFresh s t
               | .mono t => (t, s)) with
        | (opType, s1) =>
        match u.infer l env s1 false with
        | .thr e s2 => .thr e s2
        | .ok _ s2 =>
          match applyConstraints fuel s2 (dAnn l).inferredType with
          | .thr e s3 => .thr e s3
          | .ok recvL s3 =>
            match u.infer r env s3 false with
            | .thr e s4 => .thr e s4
            | .ok _ s4 =>
              match applyConstraints fuel s4 (dAnn r).inferredType with
              | .thr e s5 => .thr e s5
              | .ok recvR s5 =>
                match addToConstraintList fuel s5
                    (.fn [(dAnn l).inferredType, (dAnn r).inferredType] storedType)
                    opType with
                | .ok _ s6 => .ok () s6
                | .thr .fuel s6 => .thr .fuel s6
                | .thr (.unify _ _) s6 =>
                  .ok () (pushErr s6 (.invalidArgumentTypes
                    (match opType with | .fn ps _ => ps | _ => []) [recvL, recvR]))
                | .thr _ s6 => .ok () s6
    | .expressionStatement _ e =>
      match addToConstraintList fuel s storedType tUndef with
      | .ok _ s1 => u.infer e env s1 false
      | r => r
    | .returnStatement _ arg =>
      match addToConstraintList fuel s storedType (dAnn arg).inferredType with
      | .ok _ s1 => u.infer arg env s1 false
      | r => r
    | .program _ body => u.blockLike storedType body env s isTop
    | .blockStatement _ body => u.blockLike storedType body env s isTop
    | .literal _ v =>
      match v with
      | .lnull =>
        addToConstraintList fuel { s with counter := s.counter + 1 }
          storedType (.list (.tvar (tname s.counter)))
      | .lnum _ => addToConstraintList fuel s storedType tNumber
      | .lbool _ => addToConstraintList fuel s storedType tBool
      | .lstr _ => addToConstraintList fuel s storedType tString
    | .identifier _ name =>
      match envGetT env name with
      | some (.poly t) =>
        match extractFreeVariablesAndGenFresh s t with
        | (instTy, s1) => addToConstraintList fuel s1 storedType instTy
      | some (.mono t) => addToConstraintList fuel s storedType t
      | none => .ok () (pushErr s (.undefinedIdentifier name))
    | .conditionalExpression _ t cq al => u.cond storedType t cq al env s isTop
    | .ifStatement _ t cq al => u.cond storedType t cq al env s isTop
    | .arrowFunctionExpression _ ps body =>
      match addToConstraintList fuel s storedType
          (.fn (ps.map (fun p => p.snd.inferredType)) (dAnn body).inferredType) with
      | .thr e s1 => .thr e s1
      | .ok _ s1 =>
        let env2 := ps.foldl (fun e p => envSetT e p.fst (.mono p.snd.inferredType)) env
        u.infer body env2 s1 false
    | .variableDeclaration _ _ _ init _ _ =>
      match addToConstraintList fuel s storedType tUndef with
      | .ok _ s1 => u.infer init env s1 false
      | r => r
    | .functionDeclaration _ fv _ ps body =>
      match addToConstraintList fuel s storedType tUndef with
      | .thr e s1 => .thr e s1
      | .ok _ s1 =>
        match addToConstraintList fuel s1 fv
            (.fn (ps.map (fun p => p.snd.inferredType)) (dAnn body).inferredType) with
        | .thr e s2 => .thr e s2
        | .ok _ s2 =>
          let env2 := ps.foldl (fun e p => envSetT e p.fst (.mono p.snd.inferredType)) env
          u.infer body env2 s2 false
    | .callExpression _ callee args =>
      match u.infer callee env s false with
      | .thr e s1 => .thr e s1
      | .ok _ s1 =>
        match applyConstraints fuel s1 (dAnn callee).inferredType with
        | .thr e s2 => .thr e s2
        | .ok calledFunctionType s2 =>
          match u.args args env s2 with
          | .thr e s3 => .thr e s3
          | .ok receivedTypes s3 =>
            match addToConstraintList fuel s3
                (.fn (args.map (fun x => (dAnn x).inferredType)) storedType)
                (dAnn callee).inferredType with
            | .ok _ s4 => .ok () s4
            | .thr .fuel s4 => .thr .fuel s4
            | .thr (.unify _ _) s4 =>
              let expected := match calledFunctionType with | .fn qs _ => qs | _ => []
              .ok () (pushErr s4 (.invalidArgumentTypes expected receivedTypes))
            | .thr (.arity ne nr) s4 =>
              .ok () (pushErr s4 (.differentNumberArguments ne nr))
            | .thr _ s4 => .ok () s4
    | .memberExpression _ obj prop =>
      match u.infer prop env s false with
      | .thr e s1 => .thr e s1
      | .ok _ s1 =>
        match obj with
        | .identifier _ objName =>
          match envGetT env objName with
          | none => .thr .jsError s1
          | some envType =>
            match (match envType with
                   | .poly t =>
                     match extractFreeVariablesAndGenFresh s1 t with
                     | (instTy, s2) => Res.ok instTy s2
                   | .mono t => applyConstraints fuel s1 t) with
            | .thr e s2 => .thr e s2
            | .ok arrayType s2 =>
              match arrayType with
              | .arr elemT =>
                match addToConstraintList fuel s2 (dAnn prop).inferredType tNumber with
                | .ok _ s3 => addToConstraintList fuel s3 storedType elemT
                | .thr .fuel s3 => .thr .fuel s3
                | .thr (.unify _ _) s3 =>
                  match applyConstraints fuel s3 (dAnn prop).inferredType with
                  | .thr e s4 => .thr e s4
                  | .ok recv s4 =>
                    addToConstraintList fuel
                      (pushErr s4 (.invalidArrayIndexType recv)) storedType elemT
                | .thr _ s3 => addToConstraintList fuel s3 storedType elemT
              | _ => .thr (.internal objName arrayType) s2
        | _ => .thr .jsError s1

/-- The shared `IfStatement`/`ConditionalExpression` rule (lines 876-902). -/
def condStep (fuel : Nat) (u : InferFns) (storedType : Ty) (t cq al : DNode) (env : Env)
    (s : St) (isTop : Bool) : Res Unit :=
    match addToConstraintList fuel s (dAnn t).inferredType tBool with
    | .thr e s1 => .thr e s1
    | .ok _ s1 =>
      match addToConstraintList fuel s1 storedType (dAnn cq).inferredType with
      | .thr e s2 => .thr e s2
      | .ok _ s2 =>
        match (match u.infer t env s2 false with
               | .thr .fuel s3 => Res.thr TErr.fuel s3
               | .thr (.unify lhs _) s3 =>
                 Res.ok () (pushErr s3 (.invalidTestCondition lhs))
               | .thr _ s3 => Res.ok () s3
               | .ok _ s3 => Res.ok () s3) with
        | .thr e s3 => .thr e s3
        | .ok _ s3 =>
          match u.infer cq env s3 isTop with
          | .thr e s4 => .thr e s4
          | .ok _ s4 =>
            match (match u.infer al env s4 isTop with
                   | .thr e s5 => Res.thr e s5
                   | .ok _ s5 =>
                     addToConstraintList fuel s5 (dAnn cq).inferredType
                       (dAnn al).inferredType) with
            | .ok _ s6 => .ok () s6
            | .thr .fuel s6 => .thr .fuel s6
            | .thr (.unify lhs rhs) s6 =>
              .ok () (pushErr s6 (.consequentAlternateMismatch rhs lhs))
            | .thr _ s6 => .ok () s6

/-- The `Program`/`BlockStatement` rule (lines 762-845). -/
def blockStep (fuel : Nat) (u : InferFns) (storedType : Ty) (body : List DNode) (env : Env)
    (s : St) (isTop : Bool) : Res Unit :=
    let rvi : Int := returnBlockValueNodeIndexFor body isTop
    let declNodes := (body.filter isDeclNode).reverse
    let lastDeclNodeIndex : Int :=
      match findLastIdx isDeclNode body with
      | some i => (i : Int)
      | none => -1
    let env2 := declNodes.foldl preBindDecl env
    if rvi < 0 then .thr .jsError s
    else
      match body.get? rvi.toNat with
      | none => .thr .jsError s
      | some lastNode =>
        let lastNodeType :=
          if isTop then
            match lastNode with
            | .expressionStatement _ e => (dAnn e).inferredType
            | _ => (dAnn lastNode).inferredType
          else (dAnn lastNode).inferredType
        match addToConstraintList fuel s storedType lastNodeType with
        | .thr e s1 => .thr e s1
        | .ok _ s1 =>
          match u.range body 0 (lastDeclNodeIndex + 1).toNat rvi env2 s1 isTop with
          | .thr e s2 => .thr e s2
          | .ok _ s2 =>
            match u.gen declNodes env2 s2 with
            | .thr e s3 => .thr e s3
            | .ok env3 s3 =>
              u.range body (lastDeclNodeIndex + 1).toNat body.length rvi env3
                s3 isTop

/-- A `for` loop `infer(node.body[i], ...)` over indices `[i, hi)`, passing the
block's tail flag exactly at the designated return-value index. -/
def rangeStep (u : InferFns) (body : List DNode) (i hi : Nat) (rvi : Int) (env : Env)
    (s : St) (isTop : Bool) : Res Unit :=
    if i ≥ hi then .ok () s
    else
      match body.get? i with
      | none => .ok () s
      | some nd =>
        match u.infer nd env s (if (i : Int) == rvi then isTop else false) with
        | .thr e s1 => .thr e s1
        | .ok _ s1 => u.range body (i + 1) hi rvi env s1 isTop

/-- The generalisation pass over a block's declarations (lines 813-834). -/
def genStep (fuel : Nat) (u : InferFns) (decls : List DNode) (env : Env) (s : St) : Res Env :=
    match decls with
    | [] => .ok env s
    | d :: ds =>
      match d with
      | .functionDeclaration _ fv id _ _ =>
        match applyConstraints fuel s fv with
        | .thr e s1 => .thr e s1
        | .ok t s1 => u.gen ds (envSetT env id (.poly t)) s1
      | .variableDeclaration _ _ nm init _ _ =>
        match applyConstraints fuel s (dAnn init).inferredType with
        | .thr e s1 => .thr e s1
        | .ok t s1 => u.gen ds (envSetT env nm (.poly t)) s1
      | _ => u.gen ds env s

/-- The argument loop of `CallExpression` (lines 952-956): infer each
argument and collect its applied type. -/
def argsStep (fuel : Nat) (u : InferFns) (args : List DNode) (env : Env) (s : St) :
    Res (List Ty) :=
    match args with
    | [] => .ok [] s
    | a :: as =>
      match u.infer a env s false with
      | .thr e s1 => .thr e s1
      | .ok _ s1 =>
        match applyConstraints fuel s1 (dAnn a).inferredType with
        | .thr e s2 => .thr e s2
        | .ok t s2 =>
          match u.args as env s2 with
          | .thr e s3 => .thr e s3
          | .ok ts s3 => .ok (t :: ts) s3


/-- Out-of-fuel bottom of the inference tower (an artefact of the embedding). -/
def inferBot : InferFns where
  infer := fun _ _ s _ => .thr .fuel s
  inferB := fun _ _ s _ => .thr .fuel s
  cond := fun _ _ _ _ _ s _ => .thr .fuel s
  blockLike := fun _ _ _ s _ => .thr .fuel s
  range := fun _ _ _ _ _ s _ => .thr .fuel s
  gen := fun _ _ s => .thr .fuel s
  args := fun _ _ s => .thr .fuel s

/-- The fuel-indexed tower of Pass B: level `fuel + 1` performs one step,
making its recursive calls at level `fuel` and calling the unifier with
fuel `fuel` (matching the source's single shared recursion). -/
def inferFns : Nat → InferFns
  | 0 => inferBot
  | fuel + 1 =>
    { infer := inferStep (inferFns fuel),
      inferB := inferBStep fuel (inferFns fuel),
      cond := condStep fuel (inferFns fuel),
      blockLike := blockStep fuel (inferFns fuel),
      range := rangeStep (inferFns fuel),
      gen := genStep fuel (inferFns fuel),
      args := argsStep fuel (inferFns fuel) }

/-- `infer` from the source (lines 607-624): `_infer` with
`InternalCyclicReferenceError` silently absorbed (the store as mutated so
far is kept). -/
def infer (fuel : Nat) (node : DNode) (env : Env) (s : St) (isTop : Bool) :
    Res Unit :=
  (inferFns fuel).infer node env s isTop

/-- `_infer` from the source (lines 626-1090). -/
def _infer (fuel : Nat) (node : DNode) (env : Env) (s : St) (isTop : Bool) :
    Res Unit :=
  (inferFns fuel).inferB node env s isTop

/-- The shared `IfStatement`/`ConditionalExpression` rule (lines 876-902). -/
def inferCondLike (fuel : Nat) (storedType : Ty) (t cq al : DNode) (env : Env)
    (s : St) (isTop : Bool) : Res Unit :=
  (inferFns fuel).cond storedType t cq al env s isTop

/-- The `Program`/`BlockStatement` rule (lines 762-845). -/
def inferBlockLike (fuel : Nat) (storedType : Ty) (body : List DNode) (env : Env)
    (s : St) (isTop : Bool) : Res Unit :=
  (inferFns fuel).blockLike storedType body env s isTop

/-- A `for` loop `infer(node.body[i], ...)` over indices `[i, hi)`. -/
def inferRange (fuel : Nat) (body : List DNode) (i hi : Nat) (rvi : Int)
    (env : Env) (s : St) (isTop : Bool) : Res Unit :=
  (inferFns fuel).range body i hi rvi env s isTop

/-- The generalisation pass over a block's declarations (lines 813-834). -/
def genDecls (fuel : Nat) (decls : List DNode) (env : Env) (s : St) : Res Env :=
  (inferFns fuel).gen decls env s

/-- The argument loop of `CallExpression` (lines 952-956). -/
def inferArgs (fuel : Nat) (args : List DNode) (env : Env) (s : St) :
    Res (List Ty) :=
  (inferFns fuel).args args env s

/-! ## Pass C: `traverse` with constraints (lines 50-177 of the source) -/

/-- The per-node step of pass C (lines 51-59): substitute the solved type
onto the node and mark it `Typed`; a thrown `InternalTypeError` that is not
an `InternalCyclicReferenceError` becomes a `TypeError` diagnostic, anything
else is swallowed; in either failure case the node keeps its annotation. -/
def resolveAnn (fuel : Nat) (a : Ann) (s : St) : Ann × St :=
  if a.typability ≠ .untypable then
    match applyConstraints fuel s a.inferredType with
    | .ok t s1 => (⟨t, .typed⟩, s1)
    | .thr e s1 =>
      if isInternalTypeError e ∧ ¬ isCyclicErr e then (a, pushErr s1 (.typeError e))
      else (a, s1)
  else (a, s)

mutual

/-- Pass C of `traverse`: resolve every visited node, in visiting order.
Exceptions never escape this pass (every node's step catches); for a
function declaration the `functionInferredType` resolution additionally
reports `CyclicReferenceError` on a cyclic reference, and line 154
increments the counter once more. -/
def resolve (fuel : Nat) (node : DNode) (s : St) : DNode × St :=
  match node with
  | .program a body =>
    match resolveAnn fuel a s with
    | (a2, s1) =>
      match resolveMany fuel body s1 with
      | (body2, s2) => (.program a2 body2, s2)
  | .blockStatement a body =>
    match resolveAnn fuel a s with
    | (a2, s1) =>
      match resolveMany fuel body s1 with
      | (body2, s2) => (.blockStatement a2 body2, s2)
  | .expressionStatement a e =>
    match resolveAnn fuel a s with
    | (a2, s1) =>
      match resolve fuel e s1 with
      | (e2, s2) => (.expressionStatement a2 e2, s2)
  | .conditionalExpression a t cq al =>
    match resolveAnn fuel a s with
    | (a2, s1) =>
      match resolve fuel t s1 with
      | (t2, s2) =>
        match resolve fuel cq s2 with
        | (cq2, s3) =>
          match resolve fuel al s3 with
          | (al2, s4) => (.conditionalExpression a2 t2 cq2 al2, s4)
  | .ifStatement a t cq al =>
    match resolveAnn fuel a s with
    | (a2, s1) =>
      match resolve fuel t s1 with
      | (t2, s2) =>
        match resolve fuel cq s2 with
        | (cq2, s3) =>
          match resolve fuel al s3 with
          | (al2, s4) => (.ifStatement a2 t2 cq2 al2, s4)
  | .binaryExpression a op l r =>
    match resolveAnn fuel a s with
    | (a2, s1) =>
      match resolve fuel l s1 with
      | (l2, s2) =>
        match resolve fuel r s2 with
        | (r2, s3) => (.binaryExpression a2 op l2 r2, s3)
  | .callExpression a callee args =>
    match resolveAnn fuel a s with
    | (a2, s1) =>
      match resolve fuel callee s1 with
      | (callee2, s2) =>
        match resolveMany fuel args s2 with
        | (args2, s3) => (.callExpression a2 callee2 args2, s3)
  | .returnStatement a arg =>
    match resolveAnn fuel a s with
    | (a2, s1) =>
      match resolve fuel arg s1 with
      | (arg2, s2) => (.returnStatement a2 arg2, s2)
  | .variableDeclaration a k nm init rn ri =>
    match resolveAnn fuel a s with
    | (a2, s1) =>
      match resolve fuel init s1 with
      | (init2, s2) => (.variableDeclaration a2 k nm init2 rn ri, s2)
  | .arrowFunctionExpression a ps body =>
    match resolveAnn fuel a s with
    | (a2, s1) =>
      match resolveParams fuel ps s1 with
      | (ps2, s2) =>
        match resolve fuel body s2 with
        | (body2, s3) => (.arrowFunctionExpression a2 ps2 body2, s3)
  | .functionDeclaration a fv id ps body =>
    match resolveAnn fuel a s with
    | (a2, s1) =>
      match (match applyConstraints fuel s1 fv with
             | .ok t s2 => (t, s2)
             | .thr e s2 =>
               if isCyclicErr e then (fv, pushErr s2 .cyclicReference)
               else if isInternalTypeError e then (fv, pushErr s2 (.typeError e))
               else (fv, s2)) with
      | (fv2, s3) =>
        match resolveParams fuel ps { s3 with counter := s3.counter + 1 } with
        | (ps2, s4) =>
          match resolve fuel body s4 with
          | (body2, s5) => (.functionDeclaration a2 fv2 id ps2 body2, s5)
  | .memberExpression a o p =>
    match resolveAnn fuel a s with
    | (a2, s1) =>
      match resolve fuel o s1 with
      | (o2, s2) =>
        match resolve fuel p s2 with
        | (p2, s3) => (.memberExpression a2 o2 p2, s3)
  | .literal a v =>
    match resolveAnn fuel a s with
    | (a2, s1) => (.literal a2 v, s1)
  | .identifier a n =>
    match resolveAnn fuel a s with
    | (a2, s1) => (.identifier a2 n, s1)

def resolveMany (fuel : Nat) (nodes : List DNode) (s : St) : List DNode × St :=
  match nodes with
  | [] => ([], s)
  | n :: ns =>
    match resolve fuel n s with
    | (n2, s1) =>
      match resolveMany fuel ns s1 with
      | (ns2, s2) => (n2 :: ns2, s2)

def resolveParams (fuel : Nat) (ps : List (String × Ann)) (s : St) :
    List (String × Ann) × St :=
  match ps with
  | [] => ([], s)
  | p :: rest =>
    match resolveAnn fuel p.snd s with
    | (a2, s1) =>
      match resolveParams fuel rest s1 with
      | (rest2, s2) => ((p.fst, a2) :: rest2, s2)

end

/-! ## `typeCheck` (lines 219-230 of the source) -/

/-- The process-wide mutable state outside one `typeCheck` call: the
`typeIdCounter` and `typeErrors` globals as left by previous activity. -/
structure Globals where
  typeIdCounter : Nat
  typeErrors : List SrcErr
deriving DecidableEq, Repr

/-- `typeCheck`: reset the globals (`typeIdCounter = 0`, `typeErrors = []`),
decorate, infer with the initial environment and an empty store, and
resolve.  Returns the annotated program; the diagnostics are
`(…).state.errs`. -/
def typeCheckFrom (_g : Globals) (fuel : Nat) (program : Node) : Res DNode :=
  match decorate program 0 with
  | (d, c1) =>
    match infer fuel d initialEnv
        { counter := c1, addables := initialAddables, store := [], errs := [] } true with
    | .thr e s1 => .thr e s1
    | .ok _ s1 =>
      match resolve fuel d s1 with
      | (d2, s2) => .ok d2 s2

/-- `typeCheck` as called by a fresh process. -/
def typeCheck (fuel : Nat) (program : Node) : Res DNode :=
  typeCheckFrom ⟨0, []⟩ fuel program

/-! ## Objects the individual claims are about -/

/-- Did the call return normally? -/
def Res.isOk : Res α → Bool
  | .ok _ _ => true
  | .thr _ _ => false

/-- The program `const x = 5; x[0];` (well-formed AST, wrong use of a
number as an array). -/
def progMember : Node :=
  .program [
    .variableDeclaration .dconst "x" (.literal (.lnum 5)) [] [],
    .expressionStatement (.memberExpression (.identifier "x") (.literal (.lnum 0)))
  ]

/-- The program `const x = 5; const y = 'bob'; const z = x + y;`
(its only fault is a unification failure at the `+`). -/
def progPlus : Node :=
  .program [
    .variableDeclaration .dconst "x" (.literal (.lnum 5)) [] [],
    .variableDeclaration .dconst "y" (.literal (.lstr "bob")) [] [],
    .variableDeclaration .dconst "z"
      (.binaryExpression "+" (.identifier "x") (.identifier "y")) [] []
  ]

/-- The program `(true ? true : false) === (true ? true : false);`. -/
def progEq : Node :=
  .program [
    .expressionStatement (.binaryExpression "==="
      (.conditionalExpression (.literal (.lbool true)) (.literal (.lbool true))
        (.literal (.lbool false)))
      (.conditionalExpression (.literal (.lbool true)) (.literal (.lbool true))
        (.literal (.lbool false))))
  ]

/-! ## Shared lemmas: the unifier only appends to the store and never
touches the diagnostics list -/

/-- State extension: the constraint store only ever grows by appending, and
the unifier never touches the diagnostics list. -/
def StExt (s s2 : St) : Prop := s.store <+: s2.store ∧ s2.errs = s.errs

/-- No variable name appears as the left side of two store entries, except
that a later duplicate may be the self-cyclic entry `v = List(v)` pushed by
the direct-push branch of the occurs-check rescue. -/
def DupInv (store : List Constraint) : Prop :=
  ∀ (i j : Fin store.length), (i : Nat) < (j : Nat) →
    (store.get i).fst = (store.get j).fst →
    (store.get j).snd = Ty.list (.tvar (store.get j).fst)

/-- Written from the claim's words (C6), for comparison with
`applyConstraints`: after the structural rewrite, if the result is
`List(e)` return `Pair(e, List(e))`; if it is `Pair(h1, Pair(h2, List(h3)))`
add the constraints `h2 = h3` and then `h2 = h1` to the store and return the
applied tail `Pair(h2, List(h3))`; otherwise return the structural result
unchanged. -/
def applyConstraintsSpecPost (fuel : Nat) (r : Res Ty) : Res Ty :=
  match r with
  | .thr e s1 => .thr e s1
  | .ok result s1 =>
    match result with
    | .list e => .ok (.pair e (.list e)) s1
    | .pair h1 (.pair h2 (.list h3)) =>
      match addToConstraintList fuel s1 h2 h3 with
      | .thr e s2 => .thr e s2
      | .ok _ s2 =>
        match addToConstraintList fuel s2 h2 h1 with
        | .thr e s3 => .thr e s3
        | .ok _ s3 => applyConstraintsStruct fuel s3 (.pair h2 (.list h3))
    | _ => .ok result s1

mutual

/-- Strip the type annotations off a decorated tree, recovering the estree
program object as the parser produced it (the syntax `typeCheck` mutates
only annotation fields of). -/
def eraseD : DNode → Node
  | .program _ body => .program (eraseMany body)
  | .blockStatement _ body => .blockStatement (eraseMany body)
  | .expressionStatement _ e => .expressionStatement (eraseD e)
  | .conditionalExpression _ t cq al =>
    .conditionalExpression (eraseD t) (eraseD cq) (eraseD al)
  | .ifStatement _ t cq al => .ifStatement (eraseD t) (eraseD cq) (eraseD al)
  | .binaryExpression _ op l r => .binaryExpression op (eraseD l) (eraseD r)
  | .callExpression _ callee args => .callExpression (eraseD callee) (eraseMany args)
  | .returnStatement _ arg => .returnStatement (eraseD arg)
  | .variableDeclaration _ k nm init rn ri =>
    .variableDeclaration k nm (eraseD init) rn ri
  | .arrowFunctionExpression _ ps body =>
    .arrowFunctionExpression (ps.map (fun p => p.fst)) (eraseD body)
  | .functionDeclaration _ _ id ps body =>
    .functionDeclaration id (ps.map (fun p => p.fst)) (eraseD body)
  | .memberExpression _ o p => .memberExpression (eraseD o) (eraseD p)
  | .literal _ v => .literal v
  | .identifier _ n => .identifier n

def eraseMany : List DNode → List Node
  | [] => []
  | n :: ns => eraseD n :: eraseMany ns

end

/-- The annotated program of a normal `typeCheck` return. -/
def getNode : Res DNode → DNode
  | .ok d _ => d
  | .thr _ _ => .program ⟨tUndef, .notYetTyped⟩ []

mutual

/-- Does the tree contain no function declaration node? -/
def noFunDeclD : DNode → Bool
  | .program _ body => noFunDeclManyD body
  | .blockStatement _ body => noFunDeclManyD body
  | .expressionStatement _ e => noFunDeclD e
  | .conditionalExpression _ t cq al => noFunDeclD t && noFunDeclD cq && noFunDeclD al
  | .ifStatement _ t cq al => noFunDeclD t && noFunDeclD cq && noFunDeclD al
  | .binaryExpression _ _ l r => noFunDeclD l && noFunDeclD r
  | .callExpression _ f args => noFunDeclD f && noFunDeclManyD args
  | .returnStatement _ arg => noFunDeclD arg
  | .variableDeclaration _ _ _ init _ _ => noFunDeclD init
  | .arrowFunctionExpression _ _ body => noFunDeclD body
  | .functionDeclaration _ _ _ _ _ => false
  | .memberExpression _ o p => noFunDeclD o && noFunDeclD p
  | .literal _ _ => true
  | .identifier _ _ => true

def noFunDeclManyD : List DNode → Bool
  | [] => true
  | n :: ns => noFunDeclD n && noFunDeclManyD ns

end

mutual

/-- The program with every tail declarator of a `VariableDeclaration`
removed (`declarations[0]` kept). -/
def dropRest : Node → Node
  | .program body => .program (dropRestMany body)
  | .blockStatement body => .blockStatement (dropRestMany body)
  | .expressionStatement e => .expressionStatement (dropRest e)
  | .conditionalExpression t cq al =>
    .conditionalExpression (dropRest t) (dropRest cq) (dropRest al)
  | .ifStatement t cq al => .ifStatement (dropRest t) (dropRest cq) (dropRest al)
  | .binaryExpression op l r => .binaryExpression op (dropRest l) (dropRest r)
  | .callExpression f args => .callExpression (dropRest f) (dropRestMany args)
  | .returnStatement arg => .returnStatement (dropRest arg)
  | .variableDeclaration k nm init _ _ => .variableDeclaration k nm (dropRest init) [] []
  | .arrowFunctionExpression ps body => .arrowFunctionExpression ps (dropRest body)
  | .functionDeclaration id ps body => .functionDeclaration id ps (dropRest body)
  | .memberExpression o p => .memberExpression (dropRest o) (dropRest p)
  | .literal v => .literal v
  | .identifier n => .identifier n

def dropRestMany : List Node → List Node
  | [] => []
  | n :: ns => dropRest n :: dropRestMany ns

end

mutual

/-- `dropRest` on a decorated tree (annotations untouched). -/
def dropRestD : DNode → DNode
  | .program a body => .program a (dropRestManyD body)
  | .blockStatement a body => .blockStatement a (dropRestManyD body)
  | .expressionStatement a e => .expressionStatement a (dropRestD e)
  | .conditionalExpression a t cq al =>
    .conditionalExpression a (dropRestD t) (dropRestD cq) (dropRestD al)
  | .ifStatement a t cq al => .ifStatement a (dropRestD t) (dropRestD cq) (dropRestD al)
  | .binaryExpression a op l r => .binaryExpression a op (dropRestD l) (dropRestD r)
  | .callExpression a f args => .callExpression a (dropRestD f) (dropRestManyD args)
  | .returnStatement a arg => .returnStatement a (dropRestD arg)
  | .variableDeclaration a k nm init _ _ =>
    .variableDeclaration a k nm (dropRestD init) [] []
  | .arrowFunctionExpression a ps body => .arrowFunctionExpression a ps (dropRestD body)
  | .functionDeclaration a fv id ps body =>
    .functionDeclaration a fv id ps (dropRestD body)
  | .memberExpression a o p => .memberExpression a (dropRestD o) (dropRestD p)
  | .literal a v => .literal a v
  | .identifier a n => .identifier a n

def dropRestManyD : List DNode → List DNode
  | [] => []
  | n :: ns => dropRestD n :: dropRestManyD ns

end

/-- Map a function over the tree of a normal result. -/
def mapResD (f : DNode → DNode) : Res DNode → Res DNode
  | .ok d s => .ok (f d) s
  | .thr e s => .thr e s

theorem StExt.refl (s : St) : StExt s s := ⟨List.prefix_rfl, rfl⟩

theorem StExt.trans {s1 s2 s3 : St} (h1 : StExt s1 s2) (h2 : StExt s2 s3) :
    StExt s1 s3 := ⟨h1.1.trans h2.1, h2.2.trans h1.2⟩

theorem StExt.push (s : St) (c : Constraint) :
    StExt s { s with store := s.store ++ [c] } := ⟨List.prefix_append _ _, rfl⟩

theorem unifier_stext (fuel : Nat) :
    (∀ s lhs rhs, StExt s ((unifierFns fuel).add s lhs rhs).state)
  ∧ (∀ s n rhs, StExt s ((unifierFns fuel).addVar s n rhs).state)
  ∧ (∀ s n rhs, StExt s ((unifierFns fuel).occurs s n rhs).state)
  ∧ (∀ s ps qs, StExt s ((unifierFns fuel).params2 s ps qs).state)
  ∧ (∀ s t, StExt s ((unifierFns fuel).app s t).state)
  ∧ (∀ s t, StExt s ((unifierFns fuel).struct s t).state)
  ∧ (∀ s ts, StExt s ((unifierFns fuel).each s ts).state) := by
  induction fuel with
  | zero =>
    refine ⟨?_, ?_, ?_, ?_, ?_, ?_, ?_⟩ <;>
      (intros; simp only [unifierFns, unifierBot]; exact StExt.refl _)
  | succ f ih =>
    obtain ⟨ihAdd, ihVar, ihOcc, ihPar, ihApp, ihStr, ihEach⟩ := ih
    have hocc : ∀ s n rhs, StExt s ((unifierFns (f + 1)).occurs s n rhs).state := by
      intro s n rhs
      simp only [unifierFns, occursStep]
      split
      · exact ihAdd _ _ _
      · split <;> (try split) <;> (try split) <;>
          first
            | exact ⟨List.prefix_rfl, rfl⟩
            | exact ⟨List.prefix_append _ _, rfl⟩
    have hvar : ∀ s n rhs, StExt s ((unifierFns (f + 1)).addVar s n rhs).state := by
      intro s n rhs
      simp only [unifierFns, addVarStep]
      split
      · exact StExt.refl _
      · split
        · split <;> (try split) <;>
            first
              | exact ihAdd _ _ _
              | exact StExt.refl _
              | exact ⟨List.prefix_append _ _, rfl⟩
        · split
          · exact StExt.refl _
          · split
            next r s1 heq =>
              have hx := ihApp s rhs; rw [heq] at hx
              exact hx.trans (ihOcc s1 n r)
            next e s1 heq =>
              have hx := ihApp s rhs; rw [heq] at hx
              exact hx
    have hpar : ∀ s ps qs, StExt s ((unifierFns (f + 1)).params2 s ps qs).state := by
      intro s ps qs
      cases ps with
      | nil => simp only [unifierFns, paramsStep, Res.state]; exact StExt.refl _
      | cons a as =>
        cases qs with
        | nil => simp only [unifierFns, paramsStep, Res.state]; exact StExt.refl _
        | cons b bs =>
          simp only [unifierFns, paramsStep]
          split
          next u s1 heq =>
            have hx := ihAdd s a b; rw [heq] at hx
            exact hx.trans (ihPar s1 as bs)
          next => exact ihAdd s a b
    have happ : ∀ s t, StExt s ((unifierFns (f + 1)).app s t).state := by
      intro s t
      simp only [unifierFns, appStep]
      split
      next e s1 heq =>
        have hx := ihStr s t; rw [heq] at hx; exact hx
      next result s1 heq =>
        have hx := ihStr s t; rw [heq] at hx
        split
        · exact hx
        · rename_i ha hb hc
          split
          next e s2 heq2 =>
            have hy := ihAdd s1 hb hc; rw [heq2] at hy
            exact hx.trans hy
          next u s2 heq2 =>
            have hy := ihAdd s1 hb hc; rw [heq2] at hy
            split
            next e s3 heq3 =>
              have hz := ihAdd s2 hb ha; rw [heq3] at hz
              exact hx.trans (hy.trans hz)
            next u2 s3 heq3 =>
              have hz := ihAdd s2 hb ha; rw [heq3] at hz
              exact hx.trans (hy.trans (hz.trans (ihStr s3 _)))
        · exact hx
    have hstr : ∀ s t, StExt s ((unifierFns (f + 1)).struct s t).state := by
      intro s t
      cases t <;> simp only [unifierFns, structStep]
      case prim => exact StExt.refl _
      case pair a b =>
        split
        next e s1 heq => have hx := ihStr s a; rw [heq] at hx; exact hx
        next h1 s1 heq =>
          have hx := ihStr s a; rw [heq] at hx
          split
          next e s2 heq2 => have hy := ihStr s1 b; rw [heq2] at hy; exact hx.trans hy
          next t1 s2 heq2 => have hy := ihStr s1 b; rw [heq2] at hy; exact hx.trans hy
      case list e =>
        split
        next er s1 heq => have hx := ihStr s e; rw [heq] at hx; exact hx
        next e1 s1 heq => have hx := ihStr s e; rw [heq] at hx; exact hx
      case arr e =>
        split
        next er s1 heq => have hx := ihStr s e; rw [heq] at hx; exact hx
        next e1 s1 heq => have hx := ihStr s e; rw [heq] at hx; exact hx
      case tvar n =>
        split
        · exact StExt.refl _
        · split
          · split <;> (try split) <;> exact StExt.refl _
          · exact ihApp _ _
      case fn ps r =>
        split
        next e s1 heq => have hx := ihEach s ps; rw [heq] at hx; exact hx
        next ps1 s1 heq =>
          have hx := ihEach s ps; rw [heq] at hx
          split
          next e s2 heq2 => have hy := ihApp s1 r; rw [heq2] at hy; exact hx.trans hy
          next r1 s2 heq2 => have hy := ihApp s1 r; rw [heq2] at hy; exact hx.trans hy
    have heach : ∀ s ts, StExt s ((unifierFns (f + 1)).each s ts).state := by
      intro s ts
      cases ts with
      | nil => simp only [unifierFns, eachStep, Res.state]; exact StExt.refl _
      | cons a as =>
        simp only [unifierFns, eachStep]
        split
        next e s1 heq => have hx := ihApp s a; rw [heq] at hx; exact hx
        next t1 s1 heq =>
          have hx := ihApp s a; rw [heq] at hx
          split
          next e s2 heq2 => have hy := ihEach s1 as; rw [heq2] at hy; exact hx.trans hy
          next ts1 s2 heq2 => have hy := ihEach s1 as; rw [heq2] at hy; exact hx.trans hy
    have hadd : ∀ s lhs rhs, StExt s ((unifierFns (f + 1)).add s lhs rhs).state := by
      intro s lhs rhs
      cases lhs <;> cases rhs <;> (try simp only [unifierFns, addStep])
      case prim.prim => split <;> exact StExt.refl _
      case pair.pair ha ta hb tb =>
        split
        next u s1 heq =>
          have hx := ihAdd s ha hb; rw [heq] at hx
          exact hx.trans (ihAdd s1 ta tb)
        next => exact ihAdd s ha hb
      case fn.fn ps1 r1 ps2 r2 =>
        split
        · exact StExt.refl _
        · split
          next u s1 heq =>
            have hx := ihPar s ps1 ps2; rw [heq] at hx
            exact hx.trans (ihAdd s1 r1 r2)
          next => exact ihPar s ps1 ps2
      all_goals
        first
          | exact ihVar _ _ _
          | exact ihAdd _ _ _
          | exact StExt.refl _
    exact ⟨hadd, hvar, hocc, hpar, happ, hstr, heach⟩

theorem addToConstraintList_stext (fuel : Nat) (s : St) (lhs rhs : Ty) :
    StExt s (addToConstraintList fuel s lhs rhs).state :=
  (unifier_stext fuel).1 s lhs rhs

theorem applyConstraints_stext (fuel : Nat) (s : St) (t : Ty) :
    StExt s (applyConstraints fuel s t).state :=
  (unifier_stext fuel).2.2.2.2.1 s t



/-! ## Claims -/

/-- C1: a call to `addToConstraintList` that fails by signalling
UnifyError, CyclicError or ArityError can leave the store extended: on the
constraint `Pair(a, boolean) = Pair(number, number)` the head sub-unification
first appends `a = number`, then the tail sub-unification throws UnifyError,
and the entry remains in the store seen by the catcher — so the store is not
"exactly the entries it held before the call". -/
theorem claimC1_counterexample :
    addToConstraintList 10 ⟨0, ["A"], [], []⟩
        (.pair (.tvar "a") tBool) (.pair tNumber tNumber)
      = .thr (.unify tBool tNumber) ⟨0, ["A"], [("a", tNumber)], []⟩ := rfl

/-- C1 (amended): a failed `addToConstraintList` may leave behind entries
appended by sub-unifications that succeeded before the failure; in every
case — success or failure — the entries the store held before the call are
preserved exactly and in order as a prefix of the resulting store (entries
are never removed, replaced or reordered), and the diagnostics list is
untouched. -/
theorem claimC1 (fuel : Nat) (s : St) (lhs rhs : Ty) :
    s.store <+: ((addToConstraintList fuel s lhs rhs).state).store ∧
    ((addToConstraintList fuel s lhs rhs).state).errs = s.errs :=
  addToConstraintList_stext fuel s lhs rhs

set_option maxHeartbeats 8000000 in
/-- C2: `typeCheck` throws to its caller on the program
`const x = 5; x[0];`, whose only fault is a user type error (indexing a
non-array): the `MemberExpression` case throws the `InternalTypeError`
"Expected x to be an array" and no `infer` wrapper catches it — refuting the
claim that `typeCheck` throws only on a malformed AST or an unrecognised
literal kind. -/
theorem claimC2_counterexample :
    typeCheck 100 progMember
      = .thr (.internal "x" tNumber)
          ⟨7, ["A"],
           [("T0", .tvar "T4"), ("T1", tUndef), ("T2", tNumber),
            ("T3", tUndef), ("T6", tNumber)], []⟩ := rfl

set_option maxHeartbeats 8000000 in
/-- C2 (amended): `typeCheck` converts unification failures at the guarded
call sites into diagnostics and returns normally — on
`const x = 5; const y = 'bob'; const z = x + y;` it returns with exactly one
InvalidArgumentTypes diagnostic — but it can also throw to its caller on a
user type error: a `MemberExpression` whose object does not resolve to an
array type throws `InternalTypeError` (program `const x = 5; x[0];`), in
addition to the malformed-AST and unrecognised-literal cases. -/
theorem claimC2 :
    (typeCheck 200 progPlus).isOk = true ∧
    (typeCheck 200 progPlus).state.errs
      = [.invalidArgumentTypes [.tvar "T9", .tvar "T9"] [tNumber, tString]] ∧
    (typeCheck 100 progMember).isOk = false ∧
    (∃ got, typeCheck 100 progMember
        = .thr (.internal "x" got) (typeCheck 100 progMember).state) :=
  ⟨rfl, rfl, rfl, ⟨tNumber, rfl⟩⟩

/-- C3: for a variable `a` and the containing shape `Pair(number,
Pair(number, a))` — precisely the `Pair(h, Pair(_, v))` shape of the claim —
the code does not rewrite the constraint as `a = List(number)`: it signals
CyclicError (the rescue only accepts `Pair(h, v)` and `Pair(h, List(v))`). -/
theorem claimC3_counterexample :
    addToConstraintList 10 ⟨0, ["A"], [], []⟩
        (.tvar "a") (.pair tNumber (.pair tNumber (.tvar "a")))
      = .thr (.cyclic "a") ⟨0, ["A"], [], []⟩ ∧
    addToConstraintList 10 ⟨0, ["A"], [], []⟩ (.tvar "a") (.list tNumber)
      = .ok () ⟨0, ["A"], [("a", .pair tNumber (.list tNumber))], []⟩ :=
  ⟨rfl, rfl⟩

/-- C3 (amended): when a constraint binds a variable `v` to a term `rhs`
containing `v`, the rescue applies when `rhs` is `Pair(h, v)` or
`Pair(h, List(v))`: the constraint is handled as `v = List(h)`; when `rhs`
is `List(v)` itself the entry `v = List(v)` is appended directly; every
other containing shape signals CyclicError with the store unchanged. -/
theorem claimC3 (fuel : Nat) (s : St) (n : String) (h : Ty) (rhs : Ty) :
    (addToConstraintList (fuel + 2) s (.tvar n) (.pair h (.tvar n))
        = addToConstraintList fuel s (.tvar n) (.list h)) ∧
    (addToConstraintList (fuel + 2) s (.tvar n) (.pair h (.list (.tvar n)))
        = addToConstraintList fuel s (.tvar n) (.list h)) ∧
    (addToConstraintList (fuel + 2) s (.tvar n) (.list (.tvar n))
        = .ok () { s with store := s.store ++ [(n, .list (.tvar n))] }) ∧
    (contains rhs n = true → rhs ≠ .tvar n →
      (∀ h2, rhs ≠ .pair h2 (.tvar n) ∧ rhs ≠ .pair h2 (.list (.tvar n))) →
      rhs ≠ .list (.tvar n) →
      addToConstraintList (fuel + 2) s (.tvar n) rhs = .thr (.cyclic n) s) := by
  refine ⟨?_, ?_, ?_, ?_⟩
  · simp [addToConstraintList, unifierFns, addStep, addVarStep, contains]
  · simp [addToConstraintList, unifierFns, addStep, addVarStep, contains]
  · simp [addToConstraintList, unifierFns, addStep, addVarStep, contains]
  · intro hcont hne hshape hlist
    cases rhs with
    | prim p => simp [contains] at hcont
    | tvar m =>
      simp only [contains, beq_iff_eq] at hcont
      exact absurd (by rw [hcont]) hne
    | fn ps r =>
      simp only [addToConstraintList, unifierFns, addStep, addVarStep]
      rw [if_neg (by simp), if_pos hcont]
    | arr e =>
      simp only [addToConstraintList, unifierFns, addStep, addVarStep]
      rw [if_neg (by simp), if_pos hcont]
    | list e =>
      simp only [addToConstraintList, unifierFns, addStep, addVarStep]
      rw [if_neg (by simp), if_pos hcont]
      have : e ≠ .tvar n := fun hh => hlist (by rw [hh])
      simp [this]
    | pair hh tt =>
      simp only [addToConstraintList, unifierFns, addStep, addVarStep]
      rw [if_neg (by simp), if_pos hcont]
      have h1 : tt ≠ .tvar n := fun he => (hshape hh).1 (by rw [he])
      have h2 : tt ≠ .list (.tvar n) := fun he => (hshape hh).2 (by rw [he])
      simp [h1, h2]

/-- C3 (witness): the amended characterisation applied at concrete inputs,
including a containing shape (`Function([a], number)`) outside the rescue. -/
theorem claimC3_witness :
    (addToConstraintList (10 + 2) ⟨0, ["A"], [], []⟩
        (.tvar "a") (.pair tNumber (.tvar "a"))
      = addToConstraintList 10 ⟨0, ["A"], [], []⟩ (.tvar "a") (.list tNumber)) ∧
    (addToConstraintList (10 + 2) ⟨0, ["A"], [], []⟩
        (.tvar "a") (.fn [.tvar "a"] tNumber)
      = .thr (.cyclic "a") ⟨0, ["A"], [], []⟩) := by
  have h := claimC3 10 ⟨0, ["A"], [], []⟩ "a" tNumber (.fn [.tvar "a"] tNumber)
  exact ⟨h.1, h.2.2.2 (by decide) (by decide)
    (fun h2 => ⟨fun he => Ty.noConfusion he, fun he => Ty.noConfusion he⟩)
    (by decide)⟩

set_option maxHeartbeats 8000000 in
/-- C4: the "consequently" part fails.  On the diagnostic-free program
`(true ? true : false) === (true ? true : false);` the run of `typeCheck`
succeeds with an empty diagnostic list, yet the addable variable `T11`
(the instantiated copy of the `===` operator's `∀A:addable` variable) is
bound in the final store and resolves to `boolean`: the insertion-time guard
inspects only the raw right-hand side, and a variable-to-variable shortcut
lets `boolean` through. -/
theorem claimC4_counterexample :
    (typeCheck 200 progEq).isOk = true ∧
    (typeCheck 200 progEq).state.errs = [] ∧
    (typeCheck 200 progEq).state.addables.contains "T11" = true ∧
    applyConstraints 50 (typeCheck 200 progEq).state (.tvar "T11")
      = .ok tBool (typeCheck 200 progEq).state :=
  ⟨rfl, rfl, rfl, rfl⟩

/-- C4 (amended): adding a constraint between a variable of kind addable
and a raw primitive other than number or string signals UnifyError, in
either orientation, leaving the state unchanged.  (The consequence claimed
for whole runs does not hold: an addable variable can still come to resolve
to boolean through a chain of variable bindings, even in a run of
`typeCheck` that emits no diagnostics.) -/
theorem claimC4 (fuel : Nat) (s : St) (n : String) (p : PrimName)
    (haddable : s.addables.contains n = true)
    (hp1 : p ≠ .pnumber) (hp2 : p ≠ .pstring) :
    addToConstraintList (fuel + 2) s (.tvar n) (.prim p)
        = .thr (.unify (.tvar n) (.prim p)) s ∧
    addToConstraintList (fuel + 3) s (.prim p) (.tvar n)
        = .thr (.unify (.tvar n) (.prim p)) s := by
  have key : ∀ g, addToConstraintList (g + 2) s (.tvar n) (.prim p)
      = .thr (.unify (.tvar n) (.prim p)) s := by
    intro g
    simp only [addToConstraintList, unifierFns, addStep, addVarStep]
    rw [if_neg (by simp), if_neg (by simp [contains]),
      if_pos (by cases p <;> simp_all [cannotBeResolvedIfAddable])]
  refine ⟨key fuel, ?_⟩
  have swap : addToConstraintList (fuel + 3) s (.prim p) (.tvar n)
      = addToConstraintList (fuel + 2) s (.tvar n) (.prim p) := by
    cases p <;> simp [addToConstraintList, unifierFns, addStep]
  rw [swap, key fuel]

/-- C4 (witness): the addable-guard theorem applied to the initial addable
variable `A` and the primitive `boolean`. -/
theorem claimC4_witness :
    addToConstraintList (0 + 2) ⟨0, ["A"], [], []⟩ (.tvar "A") tBool
        = .thr (.unify (.tvar "A") tBool) ⟨0, ["A"], [], []⟩ ∧
    addToConstraintList (0 + 3) ⟨0, ["A"], [], []⟩ tBool (.tvar "A")
        = .thr (.unify (.tvar "A") tBool) ⟨0, ["A"], [], []⟩ :=
  claimC4 0 ⟨0, ["A"], [], []⟩ "A" .pbool (by decide) (by decide) (by decide)

theorem dupInv_append (l : List Constraint) (c : Constraint) (h : DupInv l)
    (hc : (∃ e ∈ l, e.fst = c.fst) → c.snd = Ty.list (.tvar c.fst)) :
    DupInv (l ++ [c]) := by
  intro i j hij heq
  have hjlen : (j : Nat) < l.length + 1 := by
    have := j.isLt; simpa using this
  by_cases hj : (j : Nat) < l.length
  · have hi : (i : Nat) < l.length := lt_trans hij hj
    have gi : (l ++ [c]).get i = l.get ⟨i, hi⟩ := by
      simp [List.getElem_append_left, hi]
    have gj : (l ++ [c]).get j = l.get ⟨j, hj⟩ := by
      simp [List.getElem_append_left, hj]
    rw [gi, gj] at heq
    rw [gj]
    exact h ⟨i, hi⟩ ⟨j, hj⟩ hij heq
  · have hj' : (j : Nat) = l.length := by omega
    have gj : (l ++ [c]).get j = c := by
      simp [List.get_eq_getElem, hj', List.getElem_append_right]
    have hi : (i : Nat) < l.length := by omega
    have gi : (l ++ [c]).get i = l.get ⟨i, hi⟩ := by
      simp [List.getElem_append_left, hi]
    rw [gj]
    rw [gi, gj] at heq
    exact hc ⟨l.get ⟨i, hi⟩, List.get_mem l _ hi, heq⟩

theorem dupInv_append_fresh (l : List Constraint) (n : String) (t : Ty)
    (h : DupInv l) (hfresh : findConstraint l n = none) :
    DupInv (l ++ [(n, t)]) := by
  refine dupInv_append l (n, t) h ?_
  intro ⟨e, hmem, hfst⟩
  exfalso
  have := List.find?_eq_none.mp hfresh e hmem
  simp [hfst] at this

theorem dupInv_append_selflist (l : List Constraint) (n : String)
    (h : DupInv l) : DupInv (l ++ [(n, .list (.tvar n))]) :=
  dupInv_append l (n, .list (.tvar n)) h (fun _ => rfl)

theorem unifier_dupinv (fuel : Nat) :
    (∀ s lhs rhs, DupInv s.store → DupInv ((unifierFns fuel).add s lhs rhs).state.store)
  ∧ (∀ s n rhs, DupInv s.store → DupInv ((unifierFns fuel).addVar s n rhs).state.store)
  ∧ (∀ s n rhs, DupInv s.store → DupInv ((unifierFns fuel).occurs s n rhs).state.store)
  ∧ (∀ s ps qs, DupInv s.store → DupInv ((unifierFns fuel).params2 s ps qs).state.store)
  ∧ (∀ s t, DupInv s.store → DupInv ((unifierFns fuel).app s t).state.store)
  ∧ (∀ s t, DupInv s.store → DupInv ((unifierFns fuel).struct s t).state.store)
  ∧ (∀ s ts, DupInv s.store → DupInv ((unifierFns fuel).each s ts).state.store) := by
  induction fuel with
  | zero =>
    refine ⟨?_, ?_, ?_, ?_, ?_, ?_, ?_⟩ <;>
      (intros; simp only [unifierFns, unifierBot]; assumption)
  | succ f ih =>
    obtain ⟨ihAdd, ihVar, ihOcc, ihPar, ihApp, ihStr, ihEach⟩ := ih
    have hocc : ∀ s n rhs, DupInv s.store →
        DupInv ((unifierFns (f + 1)).occurs s n rhs).state.store := by
      intro s n rhs hd
      simp only [unifierFns, occursStep]
      split
      next c heq => exact ihAdd _ _ _ hd
      next heq =>
        split <;> (try split) <;> (try split) <;>
          first
            | exact hd
            | exact dupInv_append_fresh s.store n _ hd heq
    have hvar : ∀ s n rhs, DupInv s.store →
        DupInv ((unifierFns (f + 1)).addVar s n rhs).state.store := by
      intro s n rhs hd
      simp only [unifierFns, addVarStep]
      split
      · exact hd
      · split
        · split <;> (try split) <;>
            first
              | exact ihAdd _ _ _ hd
              | exact hd
              | (rename_i he; rw [he]; exact dupInv_append_selflist s.store n hd)
        · split
          · exact hd
          · split
            next r s1 heq =>
              have hx := ihApp s rhs hd; rw [heq] at hx
              exact ihOcc s1 n r hx
            next e s1 heq =>
              have hx := ihApp s rhs hd; rw [heq] at hx
              exact hx
    have hpar : ∀ s ps qs, DupInv s.store →
        DupInv ((unifierFns (f + 1)).params2 s ps qs).state.store := by
      intro s ps qs hd
      cases ps with
      | nil => simp only [unifierFns, paramsStep, Res.state]; exact hd
      | cons a as =>
        cases qs with
        | nil => simp only [unifierFns, paramsStep, Res.state]; exact hd
        | cons b bs =>
          simp only [unifierFns, paramsStep]
          split
          next u s1 heq =>
            have hx := ihAdd s a b hd; rw [heq] at hx
            exact ihPar s1 as bs hx
          next => exact ihAdd s a b hd
    have happ : ∀ s t, DupInv s.store →
        DupInv ((unifierFns (f + 1)).app s t).state.store := by
      intro s t hd
      simp only [unifierFns, appStep]
      split
      next e s1 heq =>
        have hx := ihStr s t hd; rw [heq] at hx; exact hx
      next result s1 heq =>
        have hx := ihStr s t hd; rw [heq] at hx
        split
        · exact hx
        · rename_i ha hb hc
          split
          next e s2 heq2 =>
            have hy := ihAdd s1 hb hc hx; rw [heq2] at hy
            exact hy
          next u s2 heq2 =>
            have hy := ihAdd s1 hb hc hx; rw [heq2] at hy
            split
            next e s3 heq3 =>
              have hz := ihAdd s2 hb ha hy; rw [heq3] at hz
              exact hz
            next u2 s3 heq3 =>
              have hz := ihAdd s2 hb ha hy; rw [heq3] at hz
              exact ihStr s3 _ hz
        · exact hx
    have hstr : ∀ s t, DupInv s.store →
        DupInv ((unifierFns (f + 1)).struct s t).state.store := by
      intro s t hd
      cases t <;> simp only [unifierFns, structStep]
      case prim => exact hd
      case pair a b =>
        split
        next e s1 heq => have hx := ihStr s a hd; rw [heq] at hx; exact hx
        next h1 s1 heq =>
          have hx := ihStr s a hd; rw [heq] at hx
          split
          next e s2 heq2 => have hy := ihStr s1 b hx; rw [heq2] at hy; exact hy
          next t1 s2 heq2 => have hy := ihStr s1 b hx; rw [heq2] at hy; exact hy
      case list e =>
        split
        next er s1 heq => have hx := ihStr s e hd; rw [heq] at hx; exact hx
        next e1 s1 heq => have hx := ihStr s e hd; rw [heq] at hx; exact hx
      case arr e =>
        split
        next er s1 heq => have hx := ihStr s e hd; rw [heq] at hx; exact hx
        next e1 s1 heq => have hx := ihStr s e hd; rw [heq] at hx; exact hx
      case tvar n =>
        split
        · exact hd
        · split
          · split <;> (try split) <;> exact hd
          · exact ihApp _ _ hd
      case fn ps r =>
        split
        next e s1 heq => have hx := ihEach s ps hd; rw [heq] at hx; exact hx
        next ps1 s1 heq =>
          have hx := ihEach s ps hd; rw [heq] at hx
          split
          next e s2 heq2 => have hy := ihApp s1 r hx; rw [heq2] at hy; exact hy
          next r1 s2 heq2 => have hy := ihApp s1 r hx; rw [heq2] at hy; exact hy
    have heach : ∀ s ts, DupInv s.store →
        DupInv ((unifierFns (f + 1)).each s ts).state.store := by
      intro s ts hd
      cases ts with
      | nil => simp only [unifierFns, eachStep, Res.state]; exact hd
      | cons a as =>
        simp only [unifierFns, eachStep]
        split
        next e s1 heq => have hx := ihApp s a hd; rw [heq] at hx; exact hx
        next t1 s1 heq =>
          have hx := ihApp s a hd; rw [heq] at hx
          split
          next e s2 heq2 => have hy := ihEach s1 as hx; rw [heq2] at hy; exact hy
          next ts1 s2 heq2 => have hy := ihEach s1 as hx; rw [heq2] at hy; exact hy
    have hadd : ∀ s lhs rhs, DupInv s.store →
        DupInv ((unifierFns (f + 1)).add s lhs rhs).state.store := by
      intro s lhs rhs hd
      cases lhs <;> cases rhs <;> (try simp only [unifierFns, addStep])
      case prim.prim => split <;> exact hd
      case pair.pair ha ta hb tb =>
        split
        next u s1 heq =>
          have hx := ihAdd s ha hb hd; rw [heq] at hx
          exact ihAdd s1 ta tb hx
        next => exact ihAdd s ha hb hd
      case fn.fn ps1 r1 ps2 r2 =>
        split
        · exact hd
        · split
          next u s1 heq =>
            have hx := ihPar s ps1 ps2 hd; rw [heq] at hx
            exact ihAdd s1 r1 r2 hx
          next => exact ihPar s ps1 ps2 hd
      all_goals
        first
          | exact ihVar _ _ _ hd
          | exact ihAdd _ _ _ hd
          | exact hd
    exact ⟨hadd, hvar, hocc, hpar, happ, hstr, heach⟩

/-- C5: two successful `addToConstraintList` calls from the empty store can
put the same variable name on the left of two distinct entries: after
`a = number` succeeds, adding `a = List(a)` also succeeds through the
direct-push branch of the occurs-check rescue, leaving both `a = number`
and `a = List(a)` in the store. -/
theorem claimC5_counterexample :
    addToConstraintList 10 ⟨0, ["A"], [], []⟩ (.tvar "a") tNumber
      = .ok () ⟨0, ["A"], [("a", tNumber)], []⟩ ∧
    addToConstraintList 10 ⟨0, ["A"], [("a", tNumber)], []⟩
        (.tvar "a") (.list (.tvar "a"))
      = .ok () ⟨0, ["A"], [("a", tNumber), ("a", .list (.tvar "a"))], []⟩ :=
  ⟨rfl, rfl⟩

/-- C5 (amended): `addToConstraintList` preserves the invariant that no
variable name appears as the left side of two distinct store entries except
that a later duplicate can only be the self-cyclic entry `v = List(v)` of
the direct-push rescue branch; and when a variable `n` is already bound by
an earlier entry `c`, `occursOnLeftInConstraintList` processes `rhs = c.snd`
instead of appending a binding for `n`. -/
theorem claimC5 (fuel : Nat) (s : St) (lhs rhs : Ty) (n : String)
    (c : Constraint) (hd : DupInv s.store)
    (hfound : findConstraint s.store n = some c) :
    DupInv ((addToConstraintList fuel s lhs rhs).state).store ∧
    occursOnLeftInConstraintList (fuel + 1) s n rhs
      = addToConstraintList fuel s rhs c.snd := by
  constructor
  · exact (unifier_dupinv fuel).1 s lhs rhs hd
  · simp only [occursOnLeftInConstraintList, unifierFns, occursStep, hfound,
      addToConstraintList]

/-- C5 (witness): the invariant and the shortcut applied on a store that
already binds `a` to `number`. -/
theorem claimC5_witness :
    DupInv ((addToConstraintList 5 ⟨0, ["A"], [("a", tNumber)], []⟩
        (.tvar "b") tBool).state).store ∧
    occursOnLeftInConstraintList (5 + 1) ⟨0, ["A"], [("a", tNumber)], []⟩
        "a" tBool
      = addToConstraintList 5 ⟨0, ["A"], [("a", tNumber)], []⟩ tBool tNumber :=
  claimC5 5 ⟨0, ["A"], [("a", tNumber)], []⟩ (.tvar "b") tBool "a"
    ("a", tNumber) (by unfold DupInv; decide) (by decide)

/-- C6: `applyConstraints` first performs the structural rewrite
(`__applyConstraints`) and then post-processes its result exactly as the
claim describes: `List(e)` becomes `Pair(e, List(e))`;
`Pair(h1, Pair(h2, List(h3)))` adds `h2 = h3` and `h2 = h1` to the store and
returns the structurally applied tail `Pair(h2, List(h3))`; anything else is
returned unchanged. -/
theorem claimC6 (fuel : Nat) (s : St) (t : Ty) :
    applyConstraints (fuel + 1) s t
      = applyConstraintsSpecPost fuel (applyConstraintsStruct fuel s t) := by
  simp only [applyConstraints, unifierFns, appStep, applyConstraintsSpecPost,
    addToConstraintList, applyConstraintsStruct]

mutual

theorem erase_decorate : ∀ (p : Node) (c : Nat), eraseD (decorate p c).fst = p
  | .program body, c => by
    rcases h : decorateMany body (c + 1) with ⟨b2, c2⟩
    have ih := erase_decorateMany body (c + 1)
    rw [h] at ih
    simp [decorate, h, eraseD, ih]
  | .blockStatement body, c => by
    rcases h : decorateMany body (c + 1) with ⟨b2, c2⟩
    have ih := erase_decorateMany body (c + 1)
    rw [h] at ih
    simp [decorate, h, eraseD, ih]
  | .expressionStatement e, c => by
    rcases h : decorate e (c + 1) with ⟨e2, c2⟩
    have ih := erase_decorate e (c + 1)
    rw [h] at ih
    simp [decorate, h, eraseD, ih]
  | .conditionalExpression t cq al, c => by
    rcases h1 : decorate t (c + 1) with ⟨t2, c2⟩
    rcases h2 : decorate cq c2 with ⟨cq2, c3⟩
    rcases h3 : decorate al c3 with ⟨al2, c4⟩
    have i1 := erase_decorate t (c + 1)
    have i2 := erase_decorate cq c2
    have i3 := erase_decorate al c3
    rw [h1] at i1; rw [h2] at i2; rw [h3] at i3
    simp [decorate, h1, h2, h3, eraseD, i1, i2, i3]
  | .ifStatement t cq al, c => by
    rcases h1 : decorate t (c + 1) with ⟨t2, c2⟩
    rcases h2 : decorate cq c2 with ⟨cq2, c3⟩
    rcases h3 : decorate al c3 with ⟨al2, c4⟩
    have i1 := erase_decorate t (c + 1)
    have i2 := erase_decorate cq c2
    have i3 := erase_decorate al c3
    rw [h1] at i1; rw [h2] at i2; rw [h3] at i3
    simp [decorate, h1, h2, h3, eraseD, i1, i2, i3]
  | .binaryExpression op l r, c => by
    rcases h1 : decorate l (c + 1) with ⟨l2, c2⟩
    rcases h2 : decorate r c2 with ⟨r2, c3⟩
    have i1 := erase_decorate l (c + 1)
    have i2 := erase_decorate r c2
    rw [h1] at i1; rw [h2] at i2
    simp [decorate, h1, h2, eraseD, i1, i2]
  | .callExpression callee args, c => by
    rcases h1 : decorate callee (c + 1) with ⟨f2, c2⟩
    rcases h2 : decorateMany args c2 with ⟨a2, c3⟩
    have i1 := erase_decorate callee (c + 1)
    have i2 := erase_decorateMany args c2
    rw [h1] at i1; rw [h2] at i2
    simp [decorate, h1, h2, eraseD, i1, i2]
  | .returnStatement arg, c => by
    rcases h : decorate arg (c + 1) with ⟨a2, c2⟩
    have ih := erase_decorate arg (c + 1)
    rw [h] at ih
    simp [decorate, h, eraseD, ih]
  | .variableDeclaration k nm init rn ri, c => by
    rcases h : decorate init (c + 1) with ⟨i2, c2⟩
    have ih := erase_decorate init (c + 1)
    rw [h] at ih
    simp [decorate, h, eraseD, ih]
  | .arrowFunctionExpression ps b, c => by
    rcases h1 : decorateParams ps (c + 1) with ⟨p2, c2⟩
    rcases h2 : decorate b c2 with ⟨b2, c3⟩
    have i1 := erase_decorateParams ps (c + 1)
    have i2 := erase_decorate b c2
    rw [h1] at i1; rw [h2] at i2
    simp [decorate, h1, h2, eraseD, i1, i2]
  | .functionDeclaration id ps b, c => by
    rcases h1 : decorateParams ps (c + 2) with ⟨p2, c2⟩
    rcases h2 : decorate b c2 with ⟨b2, c3⟩
    have i1 := erase_decorateParams ps (c + 2)
    have i2 := erase_decorate b c2
    rw [h1] at i1; rw [h2] at i2
    simp [decorate, h1, h2, eraseD, i1, i2]
  | .memberExpression o p, c => by
    rcases h1 : decorate o (c + 1) with ⟨o2, c2⟩
    rcases h2 : decorate p c2 with ⟨p2, c3⟩
    have i1 := erase_decorate o (c + 1)
    have i2 := erase_decorate p c2
    rw [h1] at i1; rw [h2] at i2
    simp [decorate, h1, h2, eraseD, i1, i2]
  | .literal v, c => by simp [decorate, eraseD]
  | .identifier n, c => by simp [decorate, eraseD]

theorem erase_decorateMany : ∀ (l : List Node) (c : Nat),
    eraseMany (decorateMany l c).fst = l
  | [], c => by simp [decorateMany, eraseMany]
  | n :: ns, c => by
    rcases h1 : decorate n c with ⟨n2, c2⟩
    rcases h2 : decorateMany ns c2 with ⟨ns2, c3⟩
    have i1 := erase_decorate n c
    have i2 := erase_decorateMany ns c2
    rw [h1] at i1; rw [h2] at i2
    simp [decorateMany, h1, h2, eraseMany, i1, i2]

theorem erase_decorateParams : ∀ (l : List String) (c : Nat),
    ((decorateParams l c).fst).map (fun p => p.fst) = l
  | [], c => by simp [decorateParams]
  | p :: ps, c => by
    rcases h : decorateParams ps (c + 1) with ⟨p2, c2⟩
    have ih := erase_decorateParams ps (c + 1)
    rw [h] at ih
    simp [decorateParams, h, ih]

end

mutual

theorem erase_resolve : ∀ (fuel : Nat) (d : DNode) (s : St),
    eraseD (resolve fuel d s).fst = eraseD d
  | fuel, .program a body, s => by
    rw [resolve.eq_def]; dsimp only [eraseD]
    rw [erase_resolveMany fuel body]
  | fuel, .blockStatement a body, s => by
    rw [resolve.eq_def]; dsimp only [eraseD]
    rw [erase_resolveMany fuel body]
  | fuel, .expressionStatement a e, s => by
    rw [resolve.eq_def]; dsimp only [eraseD]
    rw [erase_resolve fuel e]
  | fuel, .conditionalExpression a t cq al, s => by
    rw [resolve.eq_def]; dsimp only [eraseD]
    rw [erase_resolve fuel t, erase_resolve fuel cq, erase_resolve fuel al]
  | fuel, .ifStatement a t cq al, s => by
    rw [resolve.eq_def]; dsimp only [eraseD]
    rw [erase_resolve fuel t, erase_resolve fuel cq, erase_resolve fuel al]
  | fuel, .binaryExpression a op l r, s => by
    rw [resolve.eq_def]; dsimp only [eraseD]
    rw [erase_resolve fuel l, erase_resolve fuel r]
  | fuel, .callExpression a callee args, s => by
    rw [resolve.eq_def]; dsimp only [eraseD]
    rw [erase_resolve fuel callee, erase_resolveMany fuel args]
  | fuel, .returnStatement a arg, s => by
    rw [resolve.eq_def]; dsimp only [eraseD]
    rw [erase_resolve fuel arg]
  | fuel, .variableDeclaration a k nm init rn ri, s => by
    rw [resolve.eq_def]; dsimp only [eraseD]
    rw [erase_resolve fuel init]
  | fuel, .arrowFunctionExpression a ps body, s => by
    rw [resolve.eq_def]; dsimp only [eraseD]
    rw [erase_resolveParams fuel ps, erase_resolve fuel body]
  | fuel, .functionDeclaration a fv id ps body, s => by
    rw [resolve.eq_def]; dsimp only [eraseD]
    rw [erase_resolveParams fuel ps, erase_resolve fuel body]
  | fuel, .memberExpression a o p, s => by
    rw [resolve.eq_def]; dsimp only [eraseD]
    rw [erase_resolve fuel o, erase_resolve fuel p]
  | fuel, .literal a v, s => by
    rw [resolve.eq_def]; dsimp only [eraseD]
  | fuel, .identifier a n, s => by
    rw [resolve.eq_def]; dsimp only [eraseD]

theorem erase_resolveMany : ∀ (fuel : Nat) (l : List DNode) (s : St),
    eraseMany (resolveMany fuel l s).fst = eraseMany l
  | fuel, [], s => by rw [resolveMany.eq_def]
  | fuel, n :: ns, s => by
    rw [resolveMany.eq_def]; dsimp only [eraseMany]
    rw [erase_resolve fuel n, erase_resolveMany fuel ns]

theorem erase_resolveParams : ∀ (fuel : Nat) (l : List (String × Ann)) (s : St),
    ((resolveParams fuel l s).fst).map (fun p => p.fst) = l.map (fun p => p.fst)
  | fuel, [], s => by rw [resolveParams.eq_def]
  | fuel, p :: ps, s => by
    rw [resolveParams.eq_def]; dsimp only [List.map]
    rw [erase_resolveParams fuel ps]

end

/-- C8: `typeCheck` is deterministic and idempotent: the fresh-variable
counter and the diagnostics list are reset at the start of each invocation,
so two independent invocations from any global states return identical
results (identical variable names, annotations and diagnostics); and
re-running `typeCheck` on the annotated tree a normal run returns (the
source mutates the AST in place, so a second invocation receives the
annotated tree, whose decoration-relevant skeleton `eraseD` recovers the
original program) yields the identical result. -/
theorem claimC8 :
    (∀ (g1 g2 : Globals) (fuel : Nat) (p : Node),
        typeCheckFrom g1 fuel p = typeCheckFrom g2 fuel p) ∧
    (∀ (fuel : Nat) (p : Node) (d : DNode) (s : St),
        typeCheck fuel p = .ok d s →
        typeCheck fuel (eraseD d) = typeCheck fuel p) := by
  refine ⟨fun g1 g2 fuel p => rfl, fun fuel p d s h => ?_⟩
  have hed : eraseD d = p := by
    have hd := erase_decorate p 0
    unfold typeCheck typeCheckFrom at h
    rcases hdec : decorate p 0 with ⟨d1, c1⟩
    rw [hdec] at h hd
    dsimp only at h hd
    rcases hinf : infer fuel d1 initialEnv
        { counter := c1, addables := initialAddables, store := [], errs := [] } true with
      ⟨t, s1⟩ | ⟨e, s1⟩
    · rw [hinf] at h
      dsimp only at h
      have hr := erase_resolve fuel d1 s1
      rcases hres : resolve fuel d1 s1 with ⟨d2, s2⟩
      rw [hres] at h hr
      dsimp only at hr
      cases h
      rw [hr, hd]
    · rw [hinf] at h
      exact absurd h (by simp)
  rw [hed]

theorem claimC8_witness :
    typeCheck 200 (eraseD (getNode (typeCheck 200 progPlus))) =
      typeCheck 200 progPlus :=
  claimC8.2 200 progPlus (getNode (typeCheck 200 progPlus))
    ((typeCheck 200 progPlus).state) rfl

theorem resolveAnn_no_cyclicRef (fuel : Nat) (a : Ann) (s : St) :
    SrcErr.cyclicReference ∈ (((resolveAnn fuel a s).snd).errs) →
    SrcErr.cyclicReference ∈ s.errs := by
  intro hm
  have hst := applyConstraints_stext fuel s a.inferredType
  unfold resolveAnn at hm
  split at hm
  · split at hm
    next t s1 heq =>
      rw [heq] at hst
      have he : s1.errs = s.errs := hst.2
      dsimp only at hm
      rw [he] at hm
      exact hm
    next e s1 heq =>
      rw [heq] at hst
      have he : s1.errs = s.errs := hst.2
      split at hm
      · dsimp only [pushErr] at hm
        rcases List.mem_append.mp hm with h1 | h1
        · rw [he] at h1
          exact h1
        · simp at h1
      · dsimp only at hm
        rw [he] at hm
        exact hm
  · exact hm

theorem resolveParams_no_cyclicRef : ∀ (fuel : Nat) (l : List (String × Ann)) (s : St),
    SrcErr.cyclicReference ∈ (((resolveParams fuel l s).snd).errs) →
    SrcErr.cyclicReference ∈ s.errs
  | fuel, [], s => by
    intro hm
    rw [resolveParams.eq_def] at hm
    exact hm
  | fuel, p :: ps, s => by
    intro hm
    rw [resolveParams.eq_def] at hm
    dsimp only at hm
    exact resolveAnn_no_cyclicRef fuel p.snd s
      (resolveParams_no_cyclicRef fuel ps _ hm)

mutual

theorem resolve_no_cyclicRef : ∀ (fuel : Nat) (d : DNode) (s : St),
    noFunDeclD d = true →
    SrcErr.cyclicReference ∈ (((resolve fuel d s).snd).errs) →
    SrcErr.cyclicReference ∈ s.errs
  | fuel, .program a body, s => by
    intro hnf hm
    have hn : noFunDeclManyD body = true := hnf
    rw [resolve.eq_def] at hm
    dsimp only at hm
    exact resolveAnn_no_cyclicRef fuel a s
      (resolveMany_no_cyclicRef fuel body _ hn hm)
  | fuel, .blockStatement a body, s => by
    intro hnf hm
    have hn : noFunDeclManyD body = true := hnf
    rw [resolve.eq_def] at hm
    dsimp only at hm
    exact resolveAnn_no_cyclicRef fuel a s
      (resolveMany_no_cyclicRef fuel body _ hn hm)
  | fuel, .expressionStatement a e, s => by
    intro hnf hm
    have hn : noFunDeclD e = true := hnf
    rw [resolve.eq_def] at hm
    dsimp only at hm
    exact resolveAnn_no_cyclicRef fuel a s
      (resolve_no_cyclicRef fuel e _ hn hm)
  | fuel, .conditionalExpression a t cq al, s => by
    intro hnf hm
    have hn : (noFunDeclD t && noFunDeclD cq && noFunDeclD al) = true := hnf
    simp only [Bool.and_eq_true] at hn
    rcases hn with ⟨hn1, h3⟩
    rcases hn1 with ⟨h1, h2⟩
    rw [resolve.eq_def] at hm
    dsimp only at hm
    exact resolveAnn_no_cyclicRef fuel a s
      (resolve_no_cyclicRef fuel t _ h1
        (resolve_no_cyclicRef fuel cq _ h2
          (resolve_no_cyclicRef fuel al _ h3 hm)))
  | fuel, .ifStatement a t cq al, s => by
    intro hnf hm
    have hn : (noFunDeclD t && noFunDeclD cq && noFunDeclD al) = true := hnf
    simp only [Bool.and_eq_true] at hn
    rcases hn with ⟨hn1, h3⟩
    rcases hn1 with ⟨h1, h2⟩
    rw [resolve.eq_def] at hm
    dsimp only at hm
    exact resolveAnn_no_cyclicRef fuel a s
      (resolve_no_cyclicRef fuel t _ h1
        (resolve_no_cyclicRef fuel cq _ h2
          (resolve_no_cyclicRef fuel al _ h3 hm)))
  | fuel, .binaryExpression a op l r, s => by
    intro hnf hm
    have hn : (noFunDeclD l && noFunDeclD r) = true := hnf
    simp only [Bool.and_eq_true] at hn
    rcases hn with ⟨h1, h2⟩
    rw [resolve.eq_def] at hm
    dsimp only at hm
    exact resolveAnn_no_cyclicRef fuel a s
      (resolve_no_cyclicRef fuel l _ h1
        (resolve_no_cyclicRef fuel r _ h2 hm))
  | fuel, .callExpression a callee args, s => by
    intro hnf hm
    have hn : (noFunDeclD callee && noFunDeclManyD args) = true := hnf
    simp only [Bool.and_eq_true] at hn
    rcases hn with ⟨h1, h2⟩
    rw [resolve.eq_def] at hm
    dsimp only at hm
    exact resolveAnn_no_cyclicRef fuel a s
      (resolve_no_cyclicRef fuel callee _ h1
        (resolveMany_no_cyclicRef fuel args _ h2 hm))
  | fuel, .returnStatement a arg, s => by
    intro hnf hm
    have hn : noFunDeclD arg = true := hnf
    rw [resolve.eq_def] at hm
    dsimp only at hm
    exact resolveAnn_no_cyclicRef fuel a s
      (resolve_no_cyclicRef fuel arg _ hn hm)
  | fuel, .variableDeclaration a k nm init rn ri, s => by
    intro hnf hm
    have hn : noFunDeclD init = true := hnf
    rw [resolve.eq_def] at hm
    dsimp only at hm
    exact resolveAnn_no_cyclicRef fuel a s
      (resolve_no_cyclicRef fuel init _ hn hm)
  | fuel, .arrowFunctionExpression a ps body, s => by
    intro hnf hm
    have hn : noFunDeclD body = true := hnf
    rw [resolve.eq_def] at hm
    dsimp only at hm
    exact resolveAnn_no_cyclicRef fuel a s
      (resolveParams_no_cyclicRef fuel ps _
        (resolve_no_cyclicRef fuel body _ hn hm))
  | fuel, .functionDeclaration a fv id ps body, s => by
    intro hnf hm
    have hf : false = true := hnf
    exact Bool.noConfusion hf
  | fuel, .memberExpression a o p, s => by
    intro hnf hm
    have hn : (noFunDeclD o && noFunDeclD p) = true := hnf
    simp only [Bool.and_eq_true] at hn
    rcases hn with ⟨h1, h2⟩
    rw [resolve.eq_def] at hm
    dsimp only at hm
    exact resolveAnn_no_cyclicRef fuel a s
      (resolve_no_cyclicRef fuel o _ h1
        (resolve_no_cyclicRef fuel p _ h2 hm))
  | fuel, .literal a v, s => by
    intro hnf hm
    rw [resolve.eq_def] at hm
    dsimp only at hm
    exact resolveAnn_no_cyclicRef fuel a s hm
  | fuel, .identifier a n, s => by
    intro hnf hm
    rw [resolve.eq_def] at hm
    dsimp only at hm
    exact resolveAnn_no_cyclicRef fuel a s hm

theorem resolveMany_no_cyclicRef : ∀ (fuel : Nat) (l : List DNode) (s : St),
    noFunDeclManyD l = true →
    SrcErr.cyclicReference ∈ (((resolveMany fuel l s).snd).errs) →
    SrcErr.cyclicReference ∈ s.errs
  | fuel, [], s => by
    intro _ hm
    rw [resolveMany.eq_def] at hm
    exact hm
  | fuel, n :: ns, s => by
    intro hnf hm
    have hn : (noFunDeclD n && noFunDeclManyD ns) = true := hnf
    simp only [Bool.and_eq_true] at hn
    rcases hn with ⟨h1, h2⟩
    rw [resolveMany.eq_def] at hm
    dsimp only at hm
    exact resolve_no_cyclicRef fuel n s h1
      (resolveMany_no_cyclicRef fuel ns _ h2 hm)

end

/-- C9: in the resolution pass, a node whose `inferredType` resolves
cyclically is silently skipped: `resolveAnn` returns the annotation
unchanged (pre-substitution `inferredType`, typability still
`notYetTyped`) and records no diagnostic; a function declaration whose
`functionInferredType` resolves cyclically gets a `CyclicReferenceError`
diagnostic and keeps that type; and a tree with no function declaration
node never gains a `CyclicReferenceError` diagnostic during resolution. -/
theorem claimC9 :
    (∀ (fuel : Nat) (a : Ann) (s s1 : St) (e : TErr),
        a.typability ≠ .untypable →
        applyConstraints fuel s a.inferredType = .thr e s1 →
        isCyclicErr e = true →
        resolveAnn fuel a s = (a, s1) ∧ s1.errs = s.errs) ∧
    (∀ (fuel : Nat) (a : Ann) (fv : Ty) (id : String)
        (ps : List (String × Ann)) (body : DNode) (s s2 : St) (e : TErr),
        applyConstraints fuel ((resolveAnn fuel a s).snd) fv = .thr e s2 →
        isCyclicErr e = true →
        resolve fuel (.functionDeclaration a fv id ps body) s =
          (match resolveParams fuel ps
              { pushErr s2 .cyclicReference with counter := s2.counter + 1 } with
           | (ps2, s4) =>
             match resolve fuel body s4 with
             | (b2, s5) =>
               (.functionDeclaration (resolveAnn fuel a s).fst fv id ps2 b2, s5))) ∧
    (∀ (fuel : Nat) (d : DNode) (s : St),
        noFunDeclD d = true →
        SrcErr.cyclicReference ∈ (((resolve fuel d s).snd).errs) →
        SrcErr.cyclicReference ∈ s.errs) := by
  refine ⟨fun fuel a s s1 e hty happ hcyc => ⟨?_, ?_⟩,
    fun fuel a fv id ps body s s2 e happ hcyc => ?_,
    resolve_no_cyclicRef⟩
  · unfold resolveAnn
    rw [if_pos hty, happ]
    dsimp only
    rw [if_neg (fun hc => hc.2 hcyc)]
  · have he : s1.errs = s.errs := by
      have hst := applyConstraints_stext fuel s a.inferredType
      rw [happ] at hst
      exact hst.2
    exact he
  · rw [resolve.eq_def]
    dsimp only
    rw [happ]
    dsimp only
    rw [if_pos hcyc]
    rfl

theorem claimC9_witness :
    (resolveAnn 2 ⟨.tvar "a", .notYetTyped⟩
        ⟨0, [], [("a", .fn [.tvar "a"] tNumber)], []⟩
      = (⟨.tvar "a", .notYetTyped⟩,
         ⟨0, [], [("a", .fn [.tvar "a"] tNumber)], []⟩)) ∧
    SrcErr.cyclicReference ∈
      (((resolve 2 (.literal ⟨tUndef, .notYetTyped⟩ (.lnum 0))
          ⟨0, [], [], [.cyclicReference]⟩).snd).errs) ∧
    SrcErr.cyclicReference ∈
      ([SrcErr.cyclicReference] : List SrcErr) :=
  ⟨(claimC9.1 2 ⟨.tvar "a", .notYetTyped⟩
      ⟨0, [], [("a", .fn [.tvar "a"] tNumber)], []⟩
      ⟨0, [], [("a", .fn [.tvar "a"] tNumber)], []⟩
      (.cyclic "a") (by decide) rfl rfl).1,
   by decide,
   claimC9.2.2 2 (.literal ⟨tUndef, .notYetTyped⟩ (.lnum 0))
     ⟨0, [], [], [.cyclicReference]⟩ (by decide) (by decide)⟩

theorem dropRestManyD_eq_map : ∀ (l : List DNode), dropRestManyD l = l.map dropRestD
  | [] => rfl
  | n :: ns => by
    simp only [dropRestManyD, List.map, dropRestManyD_eq_map ns]

theorem dAnn_drop (d : DNode) : dAnn (dropRestD d) = dAnn d := by
  cases d <;> rfl

theorem isDeclNode_drop (d : DNode) : isDeclNode (dropRestD d) = isDeclNode d := by
  cases d <;> rfl

mutual

theorem statementHasReturn_drop : ∀ (d : DNode),
    statementHasReturn (dropRestD d) = statementHasReturn d
  | .program _ _ => rfl
  | .blockStatement _ body => by
    simp only [dropRestD, statementHasReturn, statementsHaveReturn_drop body]
  | .expressionStatement _ _ => rfl
  | .ifStatement _ t cq al => by
    simp only [dropRestD, statementHasReturn,
      statementHasReturn_drop cq, statementHasReturn_drop al]
  | .conditionalExpression _ _ _ _ => rfl
  | .binaryExpression _ _ _ _ => rfl
  | .callExpression _ _ _ => rfl
  | .returnStatement _ _ => rfl
  | .variableDeclaration _ _ _ _ _ _ => rfl
  | .arrowFunctionExpression _ _ _ => rfl
  | .functionDeclaration _ _ _ _ _ => rfl
  | .memberExpression _ _ _ => rfl
  | .literal _ _ => rfl
  | .identifier _ _ => rfl

theorem statementsHaveReturn_drop : ∀ (l : List DNode),
    statementsHaveReturn (dropRestManyD l) = statementsHaveReturn l
  | [] => rfl
  | n :: ns => by
    simp only [dropRestManyD, statementsHaveReturn,
      statementHasReturn_drop n, statementsHaveReturn_drop ns]

end

mutual

theorem stmtHasValueReturningStmt_drop : ∀ (d : DNode),
    stmtHasValueReturningStmt (dropRestD d) = stmtHasValueReturningStmt d
  | .program _ _ => rfl
  | .blockStatement _ body => by
    simp only [dropRestD, stmtHasValueReturningStmt, stmtsHaveValueReturningStmt_drop body]
  | .expressionStatement _ _ => rfl
  | .ifStatement _ t cq al => by
    simp only [dropRestD, stmtHasValueReturningStmt,
      stmtHasValueReturningStmt_drop cq, stmtHasValueReturningStmt_drop al]
  | .conditionalExpression _ _ _ _ => rfl
  | .binaryExpression _ _ _ _ => rfl
  | .callExpression _ _ _ => rfl
  | .returnStatement _ _ => rfl
  | .variableDeclaration _ _ _ _ _ _ => rfl
  | .arrowFunctionExpression _ _ _ => rfl
  | .functionDeclaration _ _ _ _ _ => rfl
  | .memberExpression _ _ _ => rfl
  | .literal _ _ => rfl
  | .identifier _ _ => rfl

theorem stmtsHaveValueReturningStmt_drop : ∀ (l : List DNode),
    stmtsHaveValueReturningStmt (dropRestManyD l) = stmtsHaveValueReturningStmt l
  | [] => rfl
  | n :: ns => by
    simp only [dropRestManyD, stmtsHaveValueReturningStmt,
      stmtHasValueReturningStmt_drop n, stmtsHaveValueReturningStmt_drop ns]

end

theorem preBindDecl_drop (e : Env) (d : DNode) :
    preBindDecl e (dropRestD d) = preBindDecl e d := by
  cases d <;> simp only [dropRestD, preBindDecl, dAnn_drop]

theorem foldl_preBind_drop : ∀ (l : List DNode) (e : Env),
    (l.map dropRestD).foldl preBindDecl e = l.foldl preBindDecl e
  | [], _ => rfl
  | n :: ns, e => by
    simp only [List.map, List.foldl, preBindDecl_drop]
    exact foldl_preBind_drop ns _

theorem findLastIdx_drop_aux (p : DNode → Bool) (hp : ∀ d, p (dropRestD d) = p d) :
    ∀ (l : List DNode) (acc : Option Nat × Nat),
    (l.map dropRestD).foldl
        (fun acc nd => (if p nd then some acc.snd else acc.fst, acc.snd + 1)) acc
      = l.foldl
        (fun acc nd => (if p nd then some acc.snd else acc.fst, acc.snd + 1)) acc
  | [], _ => rfl
  | n :: ns, acc => by
    simp only [List.map, List.foldl, hp]
    exact findLastIdx_drop_aux p hp ns _

theorem findLastIdx_drop (p : DNode → Bool) (hp : ∀ d, p (dropRestD d) = p d)
    (l : List DNode) : findLastIdx p (l.map dropRestD) = findLastIdx p l := by
  simp only [findLastIdx, findLastIdx_drop_aux p hp l]

theorem findIdxAux_drop (p : Nat → DNode → Bool)
    (hp : ∀ i d, p i (dropRestD d) = p i d) :
    ∀ (l : List DNode) (i : Nat),
    findIdxAux p (l.map dropRestD) i = findIdxAux p l i
  | [], _ => rfl
  | n :: ns, i => by
    simp only [List.map, findIdxAux, hp]
    rw [findIdxAux_drop p hp ns]

theorem rbvni_drop (body : List DNode) (top : Bool) :
    returnBlockValueNodeIndexFor (body.map dropRestD) top
      = returnBlockValueNodeIndexFor body top := by
  simp only [returnBlockValueNodeIndexFor, List.length_map,
    findLastIdx_drop stmtHasValueReturningStmt stmtHasValueReturningStmt_drop,
    findIdxAux_drop
      (fun i nd => ((i : Int) == (body.length : Int) - 1) || statementHasReturn nd)
      (fun i d => by simp only [statementHasReturn_drop])]

theorem getq_drop : ∀ (l : List DNode) (i : Nat),
    (l.map dropRestD).get? i = (l.get? i).map dropRestD
  | [], _ => rfl
  | _ :: _, 0 => rfl
  | _ :: ns, i + 1 => getq_drop ns i

theorem filter_isDecl_drop : ∀ (l : List DNode),
    (l.map dropRestD).filter isDeclNode = (l.filter isDeclNode).map dropRestD
  | [] => rfl
  | n :: ns => by
    simp only [List.map, List.filter_cons, isDeclNode_drop]
    cases isDeclNode n <;> simp [filter_isDecl_drop ns]

theorem rev_map_drop (l : List DNode) :
    (l.map dropRestD).reverse = l.reverse.map dropRestD := by
  simp [List.map_reverse]

theorem map_annTy_drop : ∀ (l : List DNode),
    (l.map dropRestD).map (fun x => (dAnn x).inferredType)
      = l.map (fun x => (dAnn x).inferredType)
  | [] => rfl
  | n :: ns => by simp only [List.map, dAnn_drop, map_annTy_drop ns]

theorem infer_dropRest : ∀ (fuel : Nat),
    (∀ d env s top, (inferFns fuel).infer (dropRestD d) env s top
        = (inferFns fuel).infer d env s top) ∧
    (∀ d env s top, (inferFns fuel).inferB (dropRestD d) env s top
        = (inferFns fuel).inferB d env s top) ∧
    (∀ st t cq al env s top,
        (inferFns fuel).cond st (dropRestD t) (dropRestD cq) (dropRestD al) env s top
          = (inferFns fuel).cond st t cq al env s top) ∧
    (∀ st body env s top,
        (inferFns fuel).blockLike st (body.map dropRestD) env s top
          = (inferFns fuel).blockLike st body env s top) ∧
    (∀ body i hi rvi env s top,
        (inferFns fuel).range (body.map dropRestD) i hi rvi env s top
          = (inferFns fuel).range body i hi rvi env s top) ∧
    (∀ decls env s, (inferFns fuel).gen (decls.map dropRestD) env s
        = (inferFns fuel).gen decls env s) ∧
    (∀ ar env s, (inferFns fuel).args (ar.map dropRestD) env s
        = (inferFns fuel).args ar env s)
  | 0 => by
    refine ⟨?_, ?_, ?_, ?_, ?_, ?_, ?_⟩ <;> intros <;> rfl
  | fuel + 1 => by
    obtain ⟨ih1, ih2, ih3, ih4, ih5, ih6, ih7⟩ := infer_dropRest fuel
    refine ⟨?_, ?_, ?_, ?_, ?_, ?_, ?_⟩
    · intro d env s top
      simp only [inferFns, inferStep, ih2]
    · intro d env s top
      simp only [inferFns]
      cases d with
      | program a body =>
        simp only [dropRestD]
        simp only [inferBStep]
        simp only [dropRestManyD_eq_map, ih4]
        simp only [dAnn]
      | blockStatement a body =>
        simp only [dropRestD]
        simp only [inferBStep]
        simp only [dropRestManyD_eq_map, ih4]
        simp only [dAnn]
      | expressionStatement a e =>
        simp only [dropRestD]
        simp only [inferBStep]
        simp only [dAnn_drop, ih1]
        simp only [dAnn]
      | conditionalExpression a t cq al =>
        simp only [dropRestD]
        simp only [inferBStep]
        simp only [ih3]
        simp only [dAnn]
      | ifStatement a t cq al =>
        simp only [dropRestD]
        simp only [inferBStep]
        simp only [ih3]
        simp only [dAnn]
      | binaryExpression a op l r =>
        simp only [dropRestD]
        simp only [inferBStep]
        simp only [dAnn_drop, ih1]
        simp only [dAnn]
      | callExpression a callee args =>
        simp only [dropRestD]
        simp only [inferBStep]
        simp only [dAnn_drop, dropRestManyD_eq_map, map_annTy_drop, ih1, ih7]
        simp only [dAnn]
      | returnStatement a arg =>
        simp only [dropRestD]
        simp only [inferBStep]
        simp only [dAnn_drop, ih1]
        simp only [dAnn]
      | variableDeclaration a k nm init rn ri =>
        simp only [dropRestD]
        simp only [inferBStep]
        simp only [dAnn_drop, ih1]
        simp only [dAnn]
      | arrowFunctionExpression a ps body =>
        simp only [dropRestD]
        simp only [inferBStep]
        simp only [dAnn_drop, ih1]
        simp only [dAnn]
      | functionDeclaration a fv id ps body =>
        simp only [dropRestD]
        simp only [inferBStep]
        simp only [dAnn_drop, ih1]
        simp only [dAnn]
      | memberExpression a obj prop =>
        cases obj <;> (
          simp only [dropRestD]
          try simp only [inferBStep]
          try simp only [dAnn_drop, ih1]
          try simp only [dAnn])
      | literal a v => simp only [dropRestD]
      | identifier a n => simp only [dropRestD]
    · intro st t cq al env s top
      simp only [inferFns]
      simp only [condStep]
      simp only [dAnn_drop, ih1]
    · intro st body env s top
      simp only [inferFns]
      simp only [blockStep, rbvni_drop, List.length_map, filter_isDecl_drop,
        rev_map_drop, foldl_preBind_drop,
        findLastIdx_drop isDeclNode isDeclNode_drop, getq_drop, ih5, ih6]
      rcases h : body.get? (returnBlockValueNodeIndexFor body top).toNat with _ | lastNode
      · simp only [h, Option.map_none']
      · simp only [h, Option.map_some']
        cases lastNode <;> (
          try simp only [dropRestD]
          try simp only [dAnn_drop]
          try simp only [dAnn])
    · intro body i hi rvi env s top
      simp only [inferFns]
      simp only [rangeStep, getq_drop]
      rcases h : body.get? i with _ | nd
      · simp only [h, Option.map_none']
      · simp only [h, Option.map_some', ih1, ih5]
    · intro decls env s
      simp only [inferFns]
      cases decls with
      | nil => rfl
      | cons d ds =>
        cases d <;> (
          try simp only [List.map]
          try simp only [genStep]
          try simp only [dropRestD]
          try simp only [dAnn_drop, ih6]
          try simp only [dAnn])
    · intro ar env s
      simp only [inferFns]
      cases ar with
      | nil => rfl
      | cons a as =>
        try simp only [List.map]
        try simp only [argsStep]
        try simp only [dAnn_drop, ih1, ih7]
        try simp only [dAnn]


mutual

theorem decorate_dropRest : ∀ (p : Node) (c : Nat),
    decorate (dropRest p) c = (dropRestD (decorate p c).fst, (decorate p c).snd)
  | .program body, c => by
    rcases h : decorateMany body (c + 1) with ⟨b2, c2⟩
    have ih := decorateMany_dropRest body (c + 1)
    rw [h] at ih
    simp [dropRest, decorate, h, ih, dropRestD]
  | .blockStatement body, c => by
    rcases h : decorateMany body (c + 1) with ⟨b2, c2⟩
    have ih := decorateMany_dropRest body (c + 1)
    rw [h] at ih
    simp [dropRest, decorate, h, ih, dropRestD]
  | .expressionStatement e, c => by
    rcases h : decorate e (c + 1) with ⟨e2, c2⟩
    have ih := decorate_dropRest e (c + 1)
    rw [h] at ih
    simp [dropRest, decorate, h, ih, dropRestD]
  | .conditionalExpression t cq al, c => by
    rcases h1 : decorate t (c + 1) with ⟨t2, c2⟩
    have i1 := decorate_dropRest t (c + 1)
    rw [h1] at i1
    rcases h2 : decorate cq c2 with ⟨cq2, c3⟩
    have i2 := decorate_dropRest cq c2
    rw [h2] at i2
    rcases h3 : decorate al c3 with ⟨al2, c4⟩
    have i3 := decorate_dropRest al c3
    rw [h3] at i3
    simp [dropRest, decorate, h1, h2, h3, i1, i2, i3, dropRestD]
  | .ifStatement t cq al, c => by
    rcases h1 : decorate t (c + 1) with ⟨t2, c2⟩
    have i1 := decorate_dropRest t (c + 1)
    rw [h1] at i1
    rcases h2 : decorate cq c2 with ⟨cq2, c3⟩
    have i2 := decorate_dropRest cq c2
    rw [h2] at i2
    rcases h3 : decorate al c3 with ⟨al2, c4⟩
    have i3 := decorate_dropRest al c3
    rw [h3] at i3
    simp [dropRest, decorate, h1, h2, h3, i1, i2, i3, dropRestD]
  | .binaryExpression op l r, c => by
    rcases h1 : decorate l (c + 1) with ⟨l2, c2⟩
    have i1 := decorate_dropRest l (c + 1)
    rw [h1] at i1
    rcases h2 : decorate r c2 with ⟨r2, c3⟩
    have i2 := decorate_dropRest r c2
    rw [h2] at i2
    simp [dropRest, decorate, h1, h2, i1, i2, dropRestD]
  | .callExpression f args, c => by
    rcases h1 : decorate f (c + 1) with ⟨f2, c2⟩
    have i1 := decorate_dropRest f (c + 1)
    rw [h1] at i1
    rcases h2 : decorateMany args c2 with ⟨g2, c3⟩
    have i2 := decorateMany_dropRest args c2
    rw [h2] at i2
    simp [dropRest, decorate, h1, h2, i1, i2, dropRestD]
  | .returnStatement arg, c => by
    rcases h : decorate arg (c + 1) with ⟨g2, c2⟩
    have ih := decorate_dropRest arg (c + 1)
    rw [h] at ih
    simp [dropRest, decorate, h, ih, dropRestD]
  | .variableDeclaration k nm init rn ri, c => by
    rcases h : decorate init (c + 1) with ⟨i2, c2⟩
    have ih := decorate_dropRest init (c + 1)
    rw [h] at ih
    simp [dropRest, decorate, h, ih, dropRestD]
  | .arrowFunctionExpression ps b, c => by
    rcases hp : decorateParams ps (c + 1) with ⟨ps2, c2⟩
    rcases h : decorate b c2 with ⟨b2, c3⟩
    have ih := decorate_dropRest b c2
    rw [h] at ih
    simp [dropRest, decorate, hp, h, ih, dropRestD]
  | .functionDeclaration id ps b, c => by
    rcases hp : decorateParams ps (c + 2) with ⟨ps2, c2⟩
    rcases h : decorate b c2 with ⟨b2, c3⟩
    have ih := decorate_dropRest b c2
    rw [h] at ih
    simp [dropRest, decorate, hp, h, ih, dropRestD]
  | .memberExpression o p, c => by
    rcases h1 : decorate o (c + 1) with ⟨o2, c2⟩
    have i1 := decorate_dropRest o (c + 1)
    rw [h1] at i1
    rcases h2 : decorate p c2 with ⟨p2, c3⟩
    have i2 := decorate_dropRest p c2
    rw [h2] at i2
    simp [dropRest, decorate, h1, h2, i1, i2, dropRestD]
  | .literal v, c => by simp [dropRest, decorate, dropRestD]
  | .identifier n, c => by simp [dropRest, decorate, dropRestD]

theorem decorateMany_dropRest : ∀ (l : List Node) (c : Nat),
    decorateMany (dropRestMany l) c
      = (dropRestManyD (decorateMany l c).fst, (decorateMany l c).snd)
  | [], c => by simp [dropRestMany, decorateMany, dropRestManyD]
  | n :: ns, c => by
    rcases h1 : decorate n c with ⟨n2, c2⟩
    have i1 := decorate_dropRest n c
    rw [h1] at i1
    rcases h2 : decorateMany ns c2 with ⟨ns2, c3⟩
    have i2 := decorateMany_dropRest ns c2
    rw [h2] at i2
    simp [dropRestMany, decorateMany, h1, h2, i1, i2, dropRestManyD]

end

section

attribute [local irreducible] resolveAnn resolve resolveMany resolveParams

mutual

theorem resolve_dropRest : ∀ (fuel : Nat) (d : DNode) (s : St),
    resolve fuel (dropRestD d) s
      = (dropRestD (resolve fuel d s).fst, (resolve fuel d s).snd)
  | fuel, .program a body, s => by
    simp only [dropRestD]
    rw [resolve.eq_def]
    conv_rhs => rw [resolve.eq_def]
    dsimp only
    rw [resolveMany_dropRest fuel body]
    try dsimp only
    try simp only [dropRestD]
    try rfl
  | fuel, .blockStatement a body, s => by
    simp only [dropRestD]
    rw [resolve.eq_def]
    conv_rhs => rw [resolve.eq_def]
    dsimp only
    rw [resolveMany_dropRest fuel body]
    try dsimp only
    try simp only [dropRestD]
    try rfl
  | fuel, .expressionStatement a e, s => by
    simp only [dropRestD]
    rw [resolve.eq_def]
    conv_rhs => rw [resolve.eq_def]
    dsimp only
    rw [resolve_dropRest fuel e]
    try dsimp only
    try simp only [dropRestD]
    try rfl
  | fuel, .conditionalExpression a t cq al, s => by
    simp only [dropRestD]
    rw [resolve.eq_def]
    conv_rhs => rw [resolve.eq_def]
    dsimp only
    rw [resolve_dropRest fuel t]
    dsimp only
    rw [resolve_dropRest fuel cq]
    dsimp only
    rw [resolve_dropRest fuel al]
    try dsimp only
    try simp only [dropRestD]
    try rfl
  | fuel, .ifStatement a t cq al, s => by
    simp only [dropRestD]
    rw [resolve.eq_def]
    conv_rhs => rw [resolve.eq_def]
    dsimp only
    rw [resolve_dropRest fuel t]
    dsimp only
    rw [resolve_dropRest fuel cq]
    dsimp only
    rw [resolve_dropRest fuel al]
    try dsimp only
    try simp only [dropRestD]
    try rfl
  | fuel, .binaryExpression a op l r, s => by
    simp only [dropRestD]
    rw [resolve.eq_def]
    conv_rhs => rw [resolve.eq_def]
    dsimp only
    rw [resolve_dropRest fuel l]
    dsimp only
    rw [resolve_dropRest fuel r]
    try dsimp only
    try simp only [dropRestD]
    try rfl
  | fuel, .callExpression a callee args, s => by
    simp only [dropRestD]
    rw [resolve.eq_def]
    conv_rhs => rw [resolve.eq_def]
    dsimp only
    rw [resolve_dropRest fuel callee]
    dsimp only
    rw [resolveMany_dropRest fuel args]
    try dsimp only
    try simp only [dropRestD]
    try rfl
  | fuel, .returnStatement a arg, s => by
    simp only [dropRestD]
    rw [resolve.eq_def]
    conv_rhs => rw [resolve.eq_def]
    dsimp only
    rw [resolve_dropRest fuel arg]
    try dsimp only
    try simp only [dropRestD]
    try rfl
  | fuel, .variableDeclaration a k nm init rn ri, s => by
    simp only [dropRestD]
    rw [resolve.eq_def]
    conv_rhs => rw [resolve.eq_def]
    dsimp only
    rw [resolve_dropRest fuel init]
    try dsimp only
    try simp only [dropRestD]
    try rfl
  | fuel, .arrowFunctionExpression a ps body, s => by
    simp only [dropRestD]
    rw [resolve.eq_def]
    conv_rhs => rw [resolve.eq_def]
    dsimp only
    rw [resolve_dropRest fuel body]
    try dsimp only
    try simp only [dropRestD]
    try rfl
  | fuel, .functionDeclaration a fv id ps body, s => by
    simp only [dropRestD]
    rw [resolve.eq_def]
    conv_rhs => rw [resolve.eq_def]
    dsimp only
    rw [resolve_dropRest fuel body]
    try dsimp only
    try simp only [dropRestD]
    try rfl
  | fuel, .memberExpression a o p, s => by
    simp only [dropRestD]
    rw [resolve.eq_def]
    conv_rhs => rw [resolve.eq_def]
    dsimp only
    rw [resolve_dropRest fuel o]
    dsimp only
    rw [resolve_dropRest fuel p]
    try dsimp only
    try simp only [dropRestD]
    try rfl
  | fuel, .literal a v, s => by
    simp only [dropRestD]
    rw [resolve.eq_def]
    try dsimp only
    try simp only [dropRestD]
    try rfl
  | fuel, .identifier a n, s => by
    simp only [dropRestD]
    rw [resolve.eq_def]
    try dsimp only
    try simp only [dropRestD]
    try rfl

theorem resolveMany_dropRest : ∀ (fuel : Nat) (l : List DNode) (s : St),
    resolveMany fuel (dropRestManyD l) s
      = (dropRestManyD (resolveMany fuel l s).fst, (resolveMany fuel l s).snd)
  | fuel, [], s => by
    simp only [dropRestManyD]
    rw [resolveMany.eq_def]
    try dsimp only
    try simp only [dropRestManyD]
    try rfl
  | fuel, n :: ns, s => by
    simp only [dropRestManyD]
    rw [resolveMany.eq_def]
    conv_rhs => rw [resolveMany.eq_def]
    dsimp only
    rw [resolve_dropRest fuel n]
    dsimp only
    rw [resolveMany_dropRest fuel ns]
    dsimp only [dropRestManyD]

end

end

/-- C10: only the first declarator of a `VariableDeclaration` is
processed.  Globally, removing the tail declarators of every
`VariableDeclaration` changes nothing: `typeCheck` returns the same
counter, store and diagnostics and the same annotations, with only the
(unvisited, unannotated) tail declarators removed from the returned
tree.  Locally: pass A decorates only `declarations[0].init` and copies
the tail declarators verbatim; the pre-binding of a block binds only
`declarations[0]`'s name, at its initialiser's raw inferred type; pass B
infers only `declarations[0].init`; and generalisation re-binds only
`declarations[0]`'s name, at its initialiser's resolved type. -/
theorem claimC10 :
    (∀ (fuel : Nat) (p : Node),
        typeCheck fuel (dropRest p) = mapResD dropRestD (typeCheck fuel p)) ∧
    (∀ (k : DeclKind) (nm : String) (init : Node) (rn : List String)
        (ri : List Node) (c : Nat),
        decorate (.variableDeclaration k nm init rn ri) c =
          (match decorate init (c + 1) with
           | (init2, c2) => (.variableDeclaration (mkAnn c) k nm init2 rn ri, c2))) ∧
    (∀ (e : Env) (a : Ann) (k : DeclKind) (nm : String) (init : DNode)
        (rn : List String) (ri : List Node),
        preBindDecl e (.variableDeclaration a k nm init rn ri) =
          envSetK (envSetT e nm (.mono (dAnn init).inferredType)) nm k) ∧
    (∀ (fuel : Nat) (a : Ann) (k : DeclKind) (nm : String) (init : DNode)
        (rn : List String) (ri : List Node) (env : Env) (s : St) (top : Bool),
        _infer (fuel + 1) (.variableDeclaration a k nm init rn ri) env s top =
          (match addToConstraintList fuel s a.inferredType tUndef with
           | .ok _ s1 => infer fuel init env s1 false
           | r => r)) ∧
    (∀ (fuel : Nat) (a : Ann) (k : DeclKind) (nm : String) (init : DNode)
        (rn : List String) (ri : List Node) (ds : List DNode) (env : Env) (s : St),
        genDecls (fuel + 1) (.variableDeclaration a k nm init rn ri :: ds) env s =
          (match applyConstraints fuel s (dAnn init).inferredType with
           | .thr e s1 => .thr e s1
           | .ok t s1 => genDecls fuel ds (envSetT env nm (.poly t)) s1)) := by
  refine ⟨fun fuel p => ?_, fun k nm init rn ri c => rfl,
    fun e a k nm init rn ri => rfl,
    fun fuel a k nm init rn ri env s top => ?_,
    fun fuel a k nm init rn ri ds env s => ?_⟩
  · unfold typeCheck typeCheckFrom
    rcases hdec : decorate p 0 with ⟨d, c1⟩
    have hd := decorate_dropRest p 0
    rw [hdec] at hd
    dsimp only at hd
    rw [hd]
    dsimp only
    have hinf := (infer_dropRest fuel).1 d initialEnv
      { counter := c1, addables := initialAddables, store := [], errs := [] } true
    unfold infer
    rw [hinf]
    rcases hi : (inferFns fuel).infer d initialEnv
        { counter := c1, addables := initialAddables, store := [], errs := [] } true with
      ⟨u, s1⟩ | ⟨e, s1⟩
    · dsimp only
      have hres := resolve_dropRest fuel d s1
      rcases hr : resolve fuel d s1 with ⟨d2, s2⟩
      rw [hr] at hres
      dsimp only at hres
      rw [hres]
      rfl
    · rfl
  · simp only [_infer, inferFns, inferBStep, infer, dAnn]
  · simp only [genDecls, inferFns, genStep, dAnn]

end TC